import Mathlib

/-!
Verification of the VideoBricks segment-timeline gesture engine.

The definitions below are a shallow embedding of `src/components/TrimSlider.tsx`
and the host wiring in `src/components/CropMask.tsx`.  Timeline times, track
percentages and pixel offsets are embedded as exact rationals (`ℚ`); the
rubber-band damping curve, which uses `Math.exp`, is embedded over `ℝ`.
Pointer positions are container-relative pixel offsets (the source subtracts
`rect.left` from `clientX` before using a coordinate; the model works with the
already-shifted value).
-/

namespace VideoBricks

/-- The `TrimSegment` record of `src/lib/types.ts`:
`{ id: string; start: number; end: number; active?: boolean }`.
The `id` is an opaque unique token (`newSegmentId()` returns a fresh string
from a counter and a timestamp); it is embedded as a natural number, since
only freshness and equality of ids matter to the engine.  The optional
`active` flag is embedded as `Option Bool` with an omitted field as `none`
(the code always tests `active !== false`). -/
structure TrimSegment where
  id : ℕ
  start : ℚ
  «end» : ℚ
  active : Option Bool
deriving DecidableEq, Repr

instance : Inhabited TrimSegment := ⟨⟨0, 0, 0, none⟩⟩

/-- A segment counts as active unless its flag is literally `false`
(`seg.active !== false` in the source). -/
def TrimSegment.isActive (s : TrimSegment) : Bool := s.active != some false

/-- `const HANDLE_SNAP_PX = 10`. -/
def HANDLE_SNAP_PX : ℚ := 10

/-- `const HANDLE_WIDTH_PX = 10`. -/
def HANDLE_WIDTH_PX : ℚ := 10

/-- `const DELETE_THRESHOLD_PX = 100`. -/
def DELETE_THRESHOLD_PX : ℚ := 100

/-- `const MERGE_THRESHOLD_PX = 100`. -/
def MERGE_THRESHOLD_PX : ℚ := 100

/-- `const DWELL_MS = 600` (milliseconds). -/
def DWELL_MS : ℕ := 600

/-- The prefetch timer delay: the literal `200` ms in `startDetailTimers`. -/
def PREFETCH_MS : ℕ := 200

/-- The minimum segment extent: the literal `0.1` used in every drag clamp. -/
def minSep : ℚ := 1/10

/-- `timeToPercent`: `duration > 0 ? (time / duration) * 100 : 0`. -/
def timeToPercent (duration t : ℚ) : ℚ :=
  if 0 < duration then t / duration * 100 else 0

/-- `percentToTime`: `(percent / 100) * duration`. -/
def percentToTime (duration p : ℚ) : ℚ := p / 100 * duration

/-- `getPercentFromEvent` for a measured container of width `w` and a
container-relative pointer offset `x`: `clamp(0, 100, (x / w) * 100)`. -/
def getPercentFromEvent (w x : ℚ) : ℚ := max 0 (min 100 (x / w * 100))

/-- `getContainerWidth`: `container ? container.getBoundingClientRect().width : 1`.
The argument is `none` when no container is mounted, `some w` for a measured
width `w`.  Only a missing container is replaced by `1`; a measured width is
returned unchanged, including `0`. -/
def getContainerWidth (container : Option ℚ) : ℚ :=
  match container with
  | none => 1
  | some w => w

/-- The width fallback used by `handleProximity`:
`containerRef.current?.getBoundingClientRect().width ?? 1` — again only a
missing container becomes `1`. -/
def proximityContainerWidth (container : Option ℚ) : ℚ :=
  match container with
  | none => 1
  | some w => w

/-- Division that records a division by zero instead of silently returning a
junk value; used to express which coordinate conversions actually divide. -/
def checkedDiv (a b : ℚ) : Option ℚ := if b = 0 then none else some (a / b)

/-- `getPercentFromEvent` with the division made explicit: a missing container
returns `0` before any division (`if (!container) return 0`); with a measured
width the source computes `(x / rect.width) * 100` and clamps, so a zero
measured width makes the conversion divide by zero (`none`). -/
def getPercentFromEventChecked (container : Option ℚ) (x : ℚ) : Option ℚ :=
  match container with
  | none => some 0
  | some w => (checkedDiv x w).map (fun q => max 0 (min 100 (q * 100)))

/-- Which edge of a segment a handle belongs to (the `"start" | "end"` strings). -/
inductive Edge where
  | start
  | «end»
deriving DecidableEq, Repr

/-- The `DetailMode` record of `TrimSlider.tsx`. -/
structure DetailMode where
  viewStart : ℚ
  viewEnd : ℚ
  handleTime : ℚ
  segmentIndex : ℕ
  edge : Edge
deriving DecidableEq, Repr

/-- `computeDetailWindow`: half-duration window positioned to preserve the
handle's proportional offset, then clamped into `[0, duration]`.  The two `if`
statements of the source run sequentially, the second seeing the first's
updates. -/
def computeDetailWindow (duration handleTime : ℚ) (segmentIndex : ℕ) (edge : Edge) :
    DetailMode :=
  let handlePct := handleTime / duration
  let windowSize := duration / 2
  let vStart := handleTime - handlePct * windowSize
  let vEnd := vStart + windowSize
  let p1 : ℚ × ℚ := if vStart < 0 then (0, min duration windowSize) else (vStart, vEnd)
  let p2 : ℚ × ℚ :=
    if duration < p1.2 then (max 0 (duration - windowSize), duration) else p1
  { viewStart := p2.1, viewEnd := p2.2, handleTime := handleTime,
    segmentIndex := segmentIndex, edge := edge }

/-- `rubberBandPx`: `a * (1 - Math.exp(-rawPx / a))` with
`a = DELETE_THRESHOLD_PX * 0.55`.  Real-valued because of `exp`. -/
noncomputable def rubberBandPx (rawPx : ℝ) : ℝ :=
  let a : ℝ := (DELETE_THRESHOLD_PX : ℝ) * 0.55
  a * (1 - Real.exp (-rawPx / a))

/-- Well-formedness of a segment list from a lower time bound `lo`: each
segment starts no earlier than `lo`, extends by at least `minSep = 0.1`, ends
by `duration`, and the remainder is well-formed from its end.  `SegsInv d 0`
is the committed-store invariant: sortedness, pairwise non-overlap, minimum
extent and containment in `[0, d]` all follow. -/
def SegsInv (d : ℚ) : ℚ → List TrimSegment → Prop
  | _, [] => True
  | lo, s :: rest =>
      lo ≤ s.start ∧ s.start + minSep ≤ s.«end» ∧ s.«end» ≤ d ∧ SegsInv d s.«end» rest

def SegsInv.dec (d : ℚ) : (lo : ℚ) → (l : List TrimSegment) → Decidable (SegsInv d lo l)
  | _, [] => isTrue trivial
  | lo, s :: rest =>
      have : Decidable (SegsInv d s.«end» rest) := SegsInv.dec d s.«end» rest
      inferInstanceAs (Decidable
        (lo ≤ s.start ∧ s.start + minSep ≤ s.«end» ∧ s.«end» ≤ d ∧ SegsInv d s.«end» rest))

instance (d lo : ℚ) (l : List TrimSegment) : Decidable (SegsInv d lo l) :=
  SegsInv.dec d lo l

/-- The invariant exactly as the specification states it: sorted by `start`,
adjacent segments non-overlapping, every extent at least `0.1`, all times in
`[0, duration]`. -/
def ClaimInvariant (d : ℚ) (segs : List TrimSegment) : Prop :=
  List.Chain' (fun a b => a.start ≤ b.start) segs ∧
  List.Chain' (fun a b => a.«end» ≤ b.start) segs ∧
  ∀ s ∈ segs, minSep ≤ s.«end» - s.start ∧ 0 ≤ s.start ∧ s.«end» ≤ d

instance (d : ℚ) (segs : List TrimSegment) : Decidable (ClaimInvariant d segs) := by
  unfold ClaimInvariant; infer_instance

/-! ## The drag state machine (`handleMouseMove` / `handleMouseUp` / transition ends)

`EngineState` collects the React state cells that the gesture handlers read and
write: `segments`, `dragging`, `deleteIntent`, `mergeIntent`, `snapBack`,
`mergeSnapBack`.  Purely visual cells (`snapStarted`, `mergeSnapStarted`,
`mergeFading`, opacity bookkeeping beyond the recorded `initialOpacity`) and the
output callbacks (`onSeek`, `onScrubStart`, `onScrubEnd`) are not modelled.
The rubber-band damping only feeds the recorded visual geometry (`cursorPct`
and the snap-back carpet edges), never a committed mutation, so the state
machine is parametric in the damping function `damp` (with `rubberBandPx` the
source instantiation). -/

/-- The `"right" | "left"` direction strings. -/
inductive Dir where
  | left
  | right
deriving DecidableEq, Repr

/-- The `DragTarget` union of `TrimSlider.tsx`. -/
inductive DragTarget where
  | startHandle (segmentIndex : ℕ)
  | endHandle (segmentIndex : ℕ)
  | shared (leftIndex rightIndex : ℕ) (startX : ℚ) (resolved : Bool)
  | playhead
deriving DecidableEq, Repr

/-- The `DeleteIntent` record. -/
structure DeleteIntent where
  segmentIndex : ℕ
  progress : ℚ
  anchorPct : ℚ
  segExtentPct : ℚ
  cursorPct : ℚ
  direction : Dir
deriving DecidableEq, Repr

/-- The `SnapBack` record. -/
structure SnapBack where
  segmentIndex : ℕ
  leftPct : ℚ
  rightPct : ℚ
  direction : Dir
  deleteAfter : Bool
  initialOpacity : ℚ
deriving DecidableEq, Repr

/-- The `MergeIntent` record. -/
structure MergeIntent where
  segmentIndex : ℕ
  targetSegmentIndex : ℕ
  progress : ℚ
  anchorPct : ℚ
  cursorPct : ℚ
  direction : Dir
deriving DecidableEq, Repr

/-- The `MergeSnapBack` record. -/
structure MergeSnapBack where
  segmentIndex : ℕ
  targetSegmentIndex : ℕ
  leftPct : ℚ
  rightPct : ℚ
  direction : Dir
  commitAfter : Bool
  initialOpacity : ℚ
deriving DecidableEq, Repr

/-- The gesture-relevant React state of `TrimSlider`. -/
structure EngineState where
  segments : List TrimSegment
  dragging : Option DragTarget
  deleteIntent : Option DeleteIntent
  mergeIntent : Option MergeIntent
  snapBack : Option SnapBack
  mergeSnapBack : Option MergeSnapBack
deriving DecidableEq, Repr

/-- `Math.min(1, 0.6 + progress * 0.8)` — the carpet opacity captured into
every intent and snap-back record. -/
def opacityFor (progress : ℚ) : ℚ := min 1 (0.6 + progress * 0.8)

/-- `minStart` of the drag handlers: `idx > 0 ? segments[idx - 1].end : lo`
(the source uses `lo = 0`; the parameter generalises it for the invariant). -/
def prevBound (lo : ℚ) (segs : List TrimSegment) (idx : ℕ) : ℚ :=
  if 0 < idx then (segs.getD (idx - 1) default).«end» else lo

/-- `maxEnd` of the drag handlers:
`idx < segments.length - 1 ? segments[idx + 1].start : duration`. -/
def nextBound (d : ℚ) (segs : List TrimSegment) (idx : ℕ) : ℚ :=
  if idx + 1 < segs.length then (segs.getD (idx + 1) default).start else d

/-- The `dragging.type === "start"` body of `handleMouseMove`: delete-intent
branch (start handle crossed past own end), merge-intent branch (crossed past
the previous segment's out-point), or the normal clamped drag.  `x` is the
container-relative pointer offset (`getPxFromEvent`), `cw` the measured track
width (`getContainerWidth`). -/
def moveStartHandle (damp : ℚ → ℚ) (st : EngineState) (duration : ℚ) (idx : ℕ)
    (x cw : ℚ) : EngineState :=
  match st.segments.get? idx with
  | none => st
  | some seg =>
    let segs := st.segments
    let percent := getPercentFromEvent cw x
    let time := percentToTime duration percent
    let minStart := prevBound 0 segs idx
    let anchorPct := timeToPercent duration seg.«end»
    let segExtentPct := timeToPercent duration seg.start
    if 1 < segs.length ∧ seg.«end» < time then
      -- 1) delete intent: start handle crossed past own end handle
      let endPx := anchorPct / 100 * cw
      let cursorPx := x
      let overshootPx := max 0 (cursorPx - endPx)
      let progress := min 1 (overshootPx / DELETE_THRESHOLD_PX)
      let dampenedPx := damp overshootPx
      let dampenedCursorPct := anchorPct + dampenedPx / cw * 100
      if 1 ≤ progress then
        let sb : SnapBack :=
          ⟨idx, segExtentPct, dampenedCursorPct, .right, true, opacityFor progress⟩
        { st with deleteIntent := none, mergeIntent := none, dragging := none,
                  snapBack := some sb }
      else
        let di : DeleteIntent :=
          ⟨idx, progress, anchorPct, segExtentPct, dampenedCursorPct, .right⟩
        { st with mergeIntent := none, deleteIntent := some di }
    else if 0 < idx ∧ time < minStart then
      -- 2) merge intent: start handle crossed past previous segment's out-point
      let boundaryPx := timeToPercent duration minStart / 100 * cw
      let cursorPx := x
      let overshootPx := max 0 (boundaryPx - cursorPx)
      let progress := min 1 (overshootPx / MERGE_THRESHOLD_PX)
      let dampenedPx := damp overshootPx
      let boundaryPct := timeToPercent duration minStart
      let dampenedCursorPct := boundaryPct - dampenedPx / cw * 100
      if 1 ≤ progress then
        let msb : MergeSnapBack :=
          ⟨idx, idx - 1, dampenedCursorPct, boundaryPct, .left, true,
            opacityFor progress⟩
        { st with deleteIntent := none, mergeIntent := none, dragging := none,
                  mergeSnapBack := some msb }
      else
        let mi : MergeIntent :=
          ⟨idx, idx - 1, progress, boundaryPct, dampenedCursorPct, .left⟩
        { st with deleteIntent := none, mergeIntent := some mi }
    else
      -- 3) normal drag
      let newStart := max minStart (min time (seg.«end» - minSep))
      { st with deleteIntent := none, mergeIntent := none,
                segments := segs.set idx { seg with start := newStart } }

/-- The `dragging.type === "end"` body of `handleMouseMove`, mirror of
`moveStartHandle`. -/
def moveEndHandle (damp : ℚ → ℚ) (st : EngineState) (duration : ℚ) (idx : ℕ)
    (x cw : ℚ) : EngineState :=
  match st.segments.get? idx with
  | none => st
  | some seg =>
    let segs := st.segments
    let percent := getPercentFromEvent cw x
    let time := percentToTime duration percent
    let maxEnd := nextBound duration segs idx
    let anchorPct := timeToPercent duration seg.start
    let segExtentPct := timeToPercent duration seg.«end»
    if 1 < segs.length ∧ time < seg.start then
      -- 1) delete intent: end handle crossed past own start handle
      let startPx := anchorPct / 100 * cw
      let cursorPx := x
      let overshootPx := max 0 (startPx - cursorPx)
      let progress := min 1 (overshootPx / DELETE_THRESHOLD_PX)
      let dampenedPx := damp overshootPx
      let dampenedCursorPct := anchorPct - dampenedPx / cw * 100
      if 1 ≤ progress then
        let sb : SnapBack :=
          ⟨idx, dampenedCursorPct, segExtentPct, .left, true, opacityFor progress⟩
        { st with deleteIntent := none, mergeIntent := none, dragging := none,
                  snapBack := some sb }
      else
        let di : DeleteIntent :=
          ⟨idx, progress, anchorPct, segExtentPct, dampenedCursorPct, .left⟩
        { st with mergeIntent := none, deleteIntent := some di }
    else if idx + 1 < segs.length ∧ maxEnd < time then
      -- 2) merge intent: end handle crossed past next segment's in-point
      let boundaryPx := timeToPercent duration maxEnd / 100 * cw
      let cursorPx := x
      let overshootPx := max 0 (cursorPx - boundaryPx)
      let progress := min 1 (overshootPx / MERGE_THRESHOLD_PX)
      let dampenedPx := damp overshootPx
      let boundaryPct := timeToPercent duration maxEnd
      let dampenedCursorPct := boundaryPct + dampenedPx / cw * 100
      if 1 ≤ progress then
        let msb : MergeSnapBack :=
          ⟨idx, idx + 1, boundaryPct, dampenedCursorPct, .right, true,
            opacityFor progress⟩
        { st with deleteIntent := none, mergeIntent := none, dragging := none,
                  mergeSnapBack := some msb }
      else
        let mi : MergeIntent :=
          ⟨idx, idx + 1, progress, boundaryPct, dampenedCursorPct, .right⟩
        { st with deleteIntent := none, mergeIntent := some mi }
    else
      -- 3) normal drag
      let newEnd := min maxEnd (max time (seg.start + minSep))
      { st with deleteIntent := none, mergeIntent := none,
                segments := segs.set idx { seg with «end» := newEnd } }

/-- The detail-trim branch of `handleMouseMove` for a start handle: the clamp
applied to the time mapped through the zoomed window
(`newTime = max(minStart, min(detailTime, seg.end - 0.1))`). -/
def applyDetailClampStart (segs : List TrimSegment) (idx : ℕ) (detailTime : ℚ) :
    List TrimSegment :=
  match segs.get? idx with
  | none => segs
  | some seg =>
      let minStart := prevBound 0 segs idx
      let newTime := max minStart (min detailTime (seg.«end» - minSep))
      segs.set idx { seg with start := newTime }

/-- The detail-trim branch of `handleMouseMove` for an end handle
(`newTime = min(maxEnd, max(detailTime, seg.start + minSep))`). -/
def applyDetailClampEnd (segs : List TrimSegment) (duration : ℚ) (idx : ℕ)
    (detailTime : ℚ) : List TrimSegment :=
  match segs.get? idx with
  | none => segs
  | some seg =>
      let maxEnd := nextBound duration segs idx
      let newTime := min maxEnd (max detailTime (seg.start + minSep))
      segs.set idx { seg with «end» := newTime }

/-- `handleMouseUp`: a shared drag just cancels; otherwise an active delete or
merge intent is converted into a snap-back whose commit flag is `false`, and
intents and the drag target are always cleared.  Segment bounds are never
touched. -/
def handleMouseUp (st : EngineState) : EngineState :=
  match st.dragging with
  | some (.shared _ _ _ _) => { st with dragging := none }
  | _ =>
    let withSnaps :=
      match st.dragging with
      | some .playhead => st
      | _ =>
        match st.deleteIntent with
        | some di =>
            let lp := match di.direction with
              | .right => di.segExtentPct
              | .left => di.cursorPct
            let rp := match di.direction with
              | .right => di.cursorPct
              | .left => di.segExtentPct
            let sb : SnapBack :=
              ⟨di.segmentIndex, lp, rp, di.direction, false, opacityFor di.progress⟩
            { st with snapBack := some sb }
        | none =>
          match st.mergeIntent with
          | some mi =>
              let lp := match mi.direction with
                | .left => mi.cursorPct
                | .right => mi.anchorPct
              let rp := match mi.direction with
                | .left => mi.anchorPct
                | .right => mi.cursorPct
              let msb : MergeSnapBack :=
                ⟨mi.segmentIndex, mi.targetSegmentIndex, lp, rp, mi.direction,
                  false, opacityFor mi.progress⟩
              { st with mergeSnapBack := some msb }
          | none => st
    { withSnaps with deleteIntent := none, mergeIntent := none, dragging := none }

/-- `segments.filter((_, i) => i !== index)` — deletion of the segment at an
index, which is exactly `List.eraseIdx`. -/
def removeAtIndex (segs : List TrimSegment) (i : ℕ) : List TrimSegment :=
  segs.eraseIdx i

/-- `handleSnapTransitionEnd`: when the snap-back carpet finishes collapsing,
delete the flagged segment (if `deleteAfter`) and clear the snap-back. -/
def handleSnapTransitionEnd (st : EngineState) : EngineState :=
  let segs :=
    match st.snapBack with
    | some sb => if sb.deleteAfter then removeAtIndex st.segments sb.segmentIndex
                 else st.segments
    | none => st.segments
  { st with segments := segs, snapBack := none }

/-! ## The merge commit (`handleMergeSnapTransitionEnd`)

The source destructures `const [a, b] = [segmentIndex, targetSegmentIndex].sort()`.
JavaScript's `Array.prototype.sort` without a comparator converts the elements
to strings and orders them lexicographically, so the pair is modelled with an
explicit decimal-string comparison, not numeric order. -/

/-- Decimal digits of a natural number, most significant first (the characters
of JavaScript's `String(n)`), computed with structural fuel. -/
def decDigitsCore (fuel n : ℕ) : List ℕ :=
  match fuel with
  | 0 => []
  | fuel + 1 => if n < 10 then [n] else decDigitsCore fuel (n / 10) ++ [n % 10]

/-- The decimal representation of `n` as a digit list (`String(n)`). -/
def decRepr (n : ℕ) : List ℕ := decDigitsCore (n + 1) n

/-- Lexicographic strict order on digit strings (UTF-16 code-unit comparison of
the decimal strings, as JavaScript's default sort comparator performs). -/
def lexLtDigits : List ℕ → List ℕ → Bool
  | [], [] => false
  | [], _ :: _ => true
  | _ :: _, [] => false
  | a :: as, b :: bs => if a < b then true else if b < a then false else lexLtDigits as bs

/-- `[x, y].sort()` with JavaScript's default (string) comparator, destructured
as a pair. -/
def jsDefaultSortPair (x y : ℕ) : ℕ × ℕ :=
  if lexLtDigits (decRepr y) (decRepr x) then (y, x) else (x, y)

/-- Phase 1 of the merge commit: expand the segment at index `a` to
`{ id: segments[a].id, start: segments[a].start, end: segments[b].end }`
(the object literal carries no `active` field). -/
def mergePhase1 (segs : List TrimSegment) (a b : ℕ) : List TrimSegment :=
  let sa := segs.getD a default
  let sb := segs.getD b default
  segs.set a { id := sa.id, start := sa.start, «end» := sb.«end», active := none }

/-- Phase 2 of the merge commit (after the ~450 ms fade):
`current.filter(s => s.id !== absorbedId)`. -/
def mergePhase2 (segs : List TrimSegment) (absorbedId : ℕ) : List TrimSegment :=
  segs.filter (fun s => s.id != absorbedId)

/-- Both phases of the committed merge, with `(a, b)` obtained from the JS
default sort of `[segmentIndex, targetSegmentIndex]` and
`absorbedId = segments[b].id`. -/
def mergeCommit (segs : List TrimSegment) (segmentIndex targetSegmentIndex : ℕ) :
    List TrimSegment :=
  let p := jsDefaultSortPair segmentIndex targetSegmentIndex
  let absorbedId := (segs.getD p.2 default).id
  mergePhase2 (mergePhase1 segs p.1 p.2) absorbedId

/-- `handleMergeSnapTransitionEnd` with both deferred phases applied: if the
merge snap-back is flagged `commitAfter`, run the two-phase merge commit on the
store; always clear the merge snap-back. -/
def handleMergeSnapTransitionEnd (st : EngineState) : EngineState :=
  let segs :=
    match st.mergeSnapBack with
    | some msb =>
        if msb.commitAfter then
          mergeCommit st.segments msb.segmentIndex msb.targetSegmentIndex
        else st.segments
    | none => st.segments
  { st with segments := segs, mergeSnapBack := none }

/-! ## Host operations on the store (`CropMask.tsx`)

The keyboard in/out handlers and the shot-detection bulk replace also write the
segment store (`setSegments`). -/

/-- Stable insertion by `start`, modelling
`[...segments, newSeg].sort((a, b) => a.start - b.start)` (stable per the
ECMAScript specification). -/
def insertByStart (x : TrimSegment) : List TrimSegment → List TrimSegment
  | [] => [x]
  | y :: ys => if x.start ≤ y.start then x :: y :: ys else y :: insertByStart x ys

/-- Stable sort by `start` (right-to-left insertion keeps the original order of
equal keys). -/
def sortByStart (l : List TrimSegment) : List TrimSegment :=
  l.foldr insertByStart []

/-- The `[` key handler: if the playhead is inside a segment
(`currentTime >= s.start && currentTime <= s.end`), move that segment's start to
the playhead; otherwise append a new one-frame segment
`{ id, start: currentTime, end: min(currentTime + frameDuration, duration) }`
and re-sort by `start`. -/
def pressLBracket (segs : List TrimSegment) (currentTime frameDuration duration : ℚ)
    (newId : ℕ) : List TrimSegment :=
  match segs.findIdx? (fun s => decide (s.start ≤ currentTime) &&
      decide (currentTime ≤ s.«end»)) with
  | some i =>
      let s := segs.getD i default
      segs.set i { s with start := currentTime }
  | none =>
      let newSeg : TrimSegment :=
        { id := newId, start := currentTime,
          «end» := min (currentTime + frameDuration) duration, active := none }
      sortByStart (segs ++ [newSeg])

/-- The `]` key handler, mirror of `pressLBracket`: adjust the surrounding
segment's end, or create `{ start: max(currentTime - frameDuration, 0),
end: currentTime }`. -/
def pressRBracket (segs : List TrimSegment) (currentTime frameDuration _duration : ℚ)
    (newId : ℕ) : List TrimSegment :=
  match segs.findIdx? (fun s => decide (s.start ≤ currentTime) &&
      decide (currentTime ≤ s.«end»)) with
  | some i =>
      let s := segs.getD i default
      segs.set i { s with «end» := currentTime }
  | none =>
      let newSeg : TrimSegment :=
        { id := newId, start := max (currentTime - frameDuration) 0,
          «end» := currentTime, active := none }
      sortByStart (segs ++ [newSeg])

/-- The shot-detection bulk replace (`handleFindShots`): each scene becomes
`{ id: newSegmentId(), start: scene.start, end: min(scene.end, duration),
active: true }`; ids are fresh sequential tokens. -/
def findShotsReplace (scenes : List (ℚ × ℚ)) (duration : ℚ) (idBase : ℕ) :
    List TrimSegment :=
  scenes.enum.map (fun p =>
    { id := idBase + p.1, start := p.2.1, «end» := min p.2.2 duration,
      active := some true })

/-! ## Reachability of committed store states

`Reachable` covers the gesture engine's own committed mutations: normal clamped
drags (full-track and detail-mode), committed deletions, and committed
two-phase merges, starting from the single full-duration seed segment
(`[{ id: newSegmentId(), start: 0, end: metadata.duration }]`).
`ReachableFull` additionally includes the host's keyboard-driven insertions and
shot-detection bulk replaces, which is the operation set named by the
specification's invariant. -/

/-- The initial drag state for a start-handle drag on segment `idx`. -/
def dragStartState (segs : List TrimSegment) (idx : ℕ) : EngineState :=
  ⟨segs, some (.startHandle idx), none, none, none, none⟩

/-- The initial drag state for an end-handle drag on segment `idx`. -/
def dragEndState (segs : List TrimSegment) (idx : ℕ) : EngineState :=
  ⟨segs, some (.endHandle idx), none, none, none, none⟩

/-- Committed store states reachable through the gesture engine alone. -/
inductive Reachable (d : ℚ) : List TrimSegment → Prop
  | seed (i : ℕ) : Reachable d [⟨i, 0, d, none⟩]
  | dragStart (segs : List TrimSegment) (damp : ℚ → ℚ) (idx : ℕ) (x cw : ℚ)
      (h : Reachable d segs) (hcw : 0 < cw) :
      Reachable d ((moveStartHandle damp (dragStartState segs idx) d idx x cw).segments)
  | dragEnd (segs : List TrimSegment) (damp : ℚ → ℚ) (idx : ℕ) (x cw : ℚ)
      (h : Reachable d segs) (hcw : 0 < cw) :
      Reachable d ((moveEndHandle damp (dragEndState segs idx) d idx x cw).segments)
  | detailStart (segs : List TrimSegment) (idx : ℕ) (t : ℚ) (h : Reachable d segs) :
      Reachable d (applyDetailClampStart segs idx t)
  | detailEnd (segs : List TrimSegment) (idx : ℕ) (t : ℚ) (h : Reachable d segs) :
      Reachable d (applyDetailClampEnd segs d idx t)
  | deleteCommit (segs : List TrimSegment) (idx : ℕ) (h : Reachable d segs)
      (hlen : 1 < segs.length) :
      Reachable d (removeAtIndex segs idx)
  | mergeCommitStep (segs : List TrimSegment) (idx tgt : ℕ) (h : Reachable d segs)
      (hadj : tgt = idx + 1 ∨ idx = tgt + 1)
      (hidx : idx < segs.length) (htgt : tgt < segs.length) :
      Reachable d (mergeCommit segs idx tgt)

/-- Committed store states reachable through the full operation set of the
specification's invariant: the gesture operations plus keyboard-driven
insertions (`[` / `]` with frame duration `fd`) and shot-detection bulk
replaces. -/
inductive ReachableFull (d fd : ℚ) : List TrimSegment → Prop
  | seed (i : ℕ) : ReachableFull d fd [⟨i, 0, d, none⟩]
  | dragStart (segs : List TrimSegment) (damp : ℚ → ℚ) (idx : ℕ) (x cw : ℚ)
      (h : ReachableFull d fd segs) (hcw : 0 < cw) :
      ReachableFull d fd
        ((moveStartHandle damp (dragStartState segs idx) d idx x cw).segments)
  | dragEnd (segs : List TrimSegment) (damp : ℚ → ℚ) (idx : ℕ) (x cw : ℚ)
      (h : ReachableFull d fd segs) (hcw : 0 < cw) :
      ReachableFull d fd
        ((moveEndHandle damp (dragEndState segs idx) d idx x cw).segments)
  | detailStart (segs : List TrimSegment) (idx : ℕ) (t : ℚ)
      (h : ReachableFull d fd segs) :
      ReachableFull d fd (applyDetailClampStart segs idx t)
  | detailEnd (segs : List TrimSegment) (idx : ℕ) (t : ℚ)
      (h : ReachableFull d fd segs) :
      ReachableFull d fd (applyDetailClampEnd segs d idx t)
  | deleteCommit (segs : List TrimSegment) (idx : ℕ) (h : ReachableFull d fd segs)
      (hlen : 1 < segs.length) :
      ReachableFull d fd (removeAtIndex segs idx)
  | mergeCommitStep (segs : List TrimSegment) (idx tgt : ℕ)
      (h : ReachableFull d fd segs) (hadj : tgt = idx + 1 ∨ idx = tgt + 1)
      (hidx : idx < segs.length) (htgt : tgt < segs.length) :
      ReachableFull d fd (mergeCommit segs idx tgt)
  | keyIn (segs : List TrimSegment) (h : ReachableFull d fd segs) (ct : ℚ)
      (hc0 : 0 ≤ ct) (hcd : ct ≤ d) (newId : ℕ) :
      ReachableFull d fd (pressLBracket segs ct fd d newId)
  | keyOut (segs : List TrimSegment) (h : ReachableFull d fd segs) (ct : ℚ)
      (hc0 : 0 ≤ ct) (hcd : ct ≤ d) (newId : ℕ) :
      ReachableFull d fd (pressRBracket segs ct fd d newId)
  | bulk (segs : List TrimSegment) (h : ReachableFull d fd segs)
      (scenes : List (ℚ × ℚ)) (hs : scenes ≠ []) (idBase : ℕ) :
      ReachableFull d fd (findShotsReplace scenes d idBase)

/-! ## Proximity blender and press classification (`handleProximity`,
`handleTrackMouseDown`, per-handle `onMouseDown`) -/

/-- The keys of the `handleProximity` record: `` `start-${i}` `` and
`` `end-${i}` ``. -/
inductive ProxKey where
  | startKey (i : ℕ)
  | endKey (i : ℕ)
deriving DecidableEq, Repr

/-- The per-handle proximity info (the `neighborColor` field is purely visual
and not modelled). -/
structure ProxInfo where
  proximity : ℚ
  neighborIndex : ℕ
deriving DecidableEq, Repr

/-- The `handleProximity` memo: for each adjacent pair `(i, i+1)` whose active
flags agree (`leftActive !== rightActive` skips the pair), when the facing
handles are within `HANDLE_WIDTH_PX`, record a 0..1 proximity under both
facing-handle keys. -/
def proximityStep (segs : List TrimSegment) (duration cw : ℚ)
    (acc : List (ProxKey × ProxInfo)) (i : ℕ) : List (ProxKey × ProxInfo) :=
  let sl := segs.getD i default
  let sr := segs.getD (i + 1) default
  if sl.isActive != sr.isActive then acc
  else
    let endPx := sl.«end» / duration * cw
    let startPx := sr.start / duration * cw
    let gapPx := startPx - endPx
    if gapPx < HANDLE_WIDTH_PX then
      let proximity := max 0 (min 1 (1 - gapPx / HANDLE_WIDTH_PX))
      acc ++ [(ProxKey.endKey i, ⟨proximity, i + 1⟩),
              (ProxKey.startKey (i + 1), ⟨proximity, i⟩)]
    else acc

def handleProximityEntries (segs : List TrimSegment) (duration cw : ℚ) :
    List (ProxKey × ProxInfo) :=
  (List.range (segs.length - 1)).foldl (proximityStep segs duration cw) []

/-- Lookup in the `handleProximity` record. -/
def handleProximityLookup (segs : List TrimSegment) (duration cw : ℚ)
    (k : ProxKey) : Option ProxInfo :=
  ((handleProximityEntries segs duration cw).find? (fun p => p.1 == k)).map (·.2)

/-- The handle-scanning loop of `handleTrackMouseDown`: starting from
`closestDist = HANDLE_SNAP_PX`, examine each segment's start then end handle,
taking a strictly closer handle as the new candidate; a handle whose proximity
blend exceeds `0.5` yields a `shared` target, otherwise a concrete one.
Returns `none` when no handle is within the snap radius (the press then targets
the playhead). -/
def classifyStep (segs : List TrimSegment) (duration cw clickX : ℚ)
    (acc : Option DragTarget × ℚ) (i : ℕ) : Option DragTarget × ℚ :=
  let seg := segs.getD i default
  let startPx := timeToPercent duration seg.start / 100 * cw
  let endPx := timeToPercent duration seg.«end» / 100 * cw
  let acc1 :=
    if |clickX - startPx| < acc.2 then
      let closest :=
        match handleProximityLookup segs duration cw (.startKey i) with
        | some blend =>
            if 1/2 < blend.proximity then
              DragTarget.shared blend.neighborIndex i clickX false
            else DragTarget.startHandle i
        | none => DragTarget.startHandle i
      (some closest, |clickX - startPx|)
    else acc
  if |clickX - endPx| < acc1.2 then
    let closest :=
      match handleProximityLookup segs duration cw (.endKey i) with
      | some blend =>
          if 1/2 < blend.proximity then
            DragTarget.shared i blend.neighborIndex clickX false
          else DragTarget.endHandle i
      | none => DragTarget.endHandle i
    (some closest, |clickX - endPx|)
  else acc1

def classifyPress (segs : List TrimSegment) (duration cw clickX : ℚ) :
    Option DragTarget :=
  ((List.range segs.length).foldl (classifyStep segs duration cw clickX)
    (none, HANDLE_SNAP_PX)).1

/-- The per-handle `onMouseDown` dispatch in the render tree:
`useShared = blend && prox > 0.5` selects `handleSharedHandleMouseDown`,
otherwise `handleHandleMouseDown` with the concrete edge. -/
def classifyHandlePress (segs : List TrimSegment) (duration cw : ℚ) (i : ℕ)
    (edge : Edge) (clickX : ℚ) : DragTarget :=
  match edge with
  | .start =>
      match handleProximityLookup segs duration cw (.startKey i) with
      | some blend =>
          if 1/2 < blend.proximity then .shared blend.neighborIndex i clickX false
          else .startHandle i
      | none => .startHandle i
  | .«end» =>
      match handleProximityLookup segs duration cw (.endKey i) with
      | some blend =>
          if 1/2 < blend.proximity then .shared i blend.neighborIndex clickX false
          else .endHandle i
      | none => .endHandle i

/-! ## Detail-thumbnail prefetch responses (`CropMask.tsx` wiring)

`onRequestDetailThumbnails` calls
`api.getVideoThumbnailsRange(...).then(setDetailThumbnails)` and
`onClearDetailThumbnails` calls `setDetailThumbnails(null)`.  A trace of the
asynchronous interaction is a list of events: request issues (numbered in
order), response arrivals (tagged with the request they answer), and clears.
Processing a response simply stores its payload — the source attaches no
sequence number and performs no staleness comparison. -/

/-- One event at the detail-thumbnail boundary. -/
inductive DetailFetchEvent where
  | request (window : ℚ × ℚ)
  | response (reqIdx : ℕ) (payload : List String)
  | clear
deriving DecidableEq, Repr

/-- Effect of one event on the `detailThumbnails` state cell. -/
def applyDetailEvent (s : Option (List String)) (e : DetailFetchEvent) :
    Option (List String) :=
  match e with
  | .request _ => s
  | .response _ payload => some payload
  | .clear => none

/-- The `detailThumbnails` state after a trace of events (initially `null`). -/
def runDetailEvents (es : List DetailFetchEvent) : Option (List String) :=
  es.foldl applyDetailEvent none

/-- A trace is valid when every response answers a request issued earlier in
the trace (`n` counts the requests issued so far). -/
def validDetailTrace : ℕ → List DetailFetchEvent → Bool
  | _, [] => true
  | n, .request _ :: rest => validDetailTrace (n + 1) rest
  | n, .response i _ :: rest => decide (i < n) && validDetailTrace n rest
  | n, .clear :: rest => validDetailTrace n rest

/-! ## Dwell and prefetch timers (`startDetailTimers`, `activateDetailMode`,
`exitDetailMode`)

The timers are `setTimeout` handles; the model tracks their absolute deadlines
(in ms).  `startDetailTimers` clears any pending timers and schedules the
prefetch at `+200` ms and the dwell activation at `+600` ms, anchored at the
handle passed to it; a timer callback runs exactly at its deadline and only
while still scheduled (`clearTimeout` removes the deadline).  The ghost fields
`lastRestart` and `activation` record when the timers were last (re)started and
with which anchor an activation fired. -/

/-- The timer-relevant state, with ghost instrumentation. -/
structure TimerState where
  dwellDeadline : Option ℕ
  prefetchDeadline : Option ℕ
  detailActive : Bool
  lastRestart : ℕ
  anchorTime : ℚ
  anchorIndex : ℕ
  anchorEdge : Edge
  activation : Option (ℕ × ℕ)
deriving DecidableEq, Repr

/-- Events driving the timers: pointer-down on a handle, a normal
(non-overshoot) drag move, shared-handle resolution, an overshoot (intent or
commit) move, a move while the detail view is active, release, and the two
timer callbacks firing. -/
inductive TimerEvent where
  | press (t : ℕ) (handleTime : ℚ) (idx : ℕ) (edge : Edge)
  | normalMove (t : ℕ) (handleTime : ℚ) (idx : ℕ) (edge : Edge)
  | resolveShared (t : ℕ) (handleTime : ℚ) (idx : ℕ) (edge : Edge)
  | intentMove (t : ℕ)
  | detailMove (t : ℕ)
  | release (t : ℕ)
  | fireDwell (t : ℕ)
  | firePrefetch (t : ℕ)
deriving DecidableEq, Repr

/-- `startDetailTimers(handleTime, segmentIndex, edge, clientX)`: clear both
timers and schedule fresh ones anchored at the handle. -/
def startDetailTimers (s : TimerState) (t : ℕ) (handleTime : ℚ) (idx : ℕ)
    (edge : Edge) : TimerState :=
  { s with dwellDeadline := some (t + DWELL_MS),
           prefetchDeadline := some (t + PREFETCH_MS),
           lastRestart := t, anchorTime := handleTime, anchorIndex := idx,
           anchorEdge := edge }

/-- One timer transition.  `press` is `handleHandleMouseDown` /
`handleTrackMouseDown` on a concrete handle (`exitDetailMode()` then
`startDetailTimers`); `normalMove` is the normal-drag branch restart;
`resolveShared` is the shared-handle resolution restart; `intentMove` is the
`clearTimeout` pair in every overshoot branch; `detailMove` clears only the
dwell timer (the prefetch callback no-ops once a detail view exists);
`release` is `handleMouseUp`'s clears plus `exitDetailMode()`; the fire events
run a scheduled callback at its deadline, with the dwell callback activating
the detail view only if none is active. -/
def timerStep (s : TimerState) (e : TimerEvent) : TimerState :=
  match e with
  | .press t h idx edge =>
      startDetailTimers
        { s with detailActive := false, dwellDeadline := none,
                 prefetchDeadline := none } t h idx edge
  | .normalMove t h idx edge => startDetailTimers s t h idx edge
  | .resolveShared t h idx edge => startDetailTimers s t h idx edge
  | .intentMove _ => { s with dwellDeadline := none, prefetchDeadline := none }
  | .detailMove _ => { s with dwellDeadline := none }
  | .release _ =>
      { s with dwellDeadline := none, prefetchDeadline := none,
               detailActive := false }
  | .fireDwell t =>
      match s.dwellDeadline with
      | some dl =>
          if t = dl then
            if s.detailActive then { s with dwellDeadline := none }
            else
              { s with dwellDeadline := none, detailActive := true,
                       activation := some (s.lastRestart, t) }
          else s
      | none => s
  | .firePrefetch t =>
      match s.prefetchDeadline with
      | some dl => if t = dl then { s with prefetchDeadline := none } else s
      | none => s

/-- The initial timer state: nothing scheduled, no detail view. -/
def initTimerState : TimerState := ⟨none, none, false, 0, 0, 0, Edge.start, none⟩

/-- The timer state after a trace of events. -/
def runTimerEvents (es : List TimerEvent) : TimerState :=
  es.foldl timerStep initTimerState

/-! ## Concrete instances used by the theorems below -/

/-- Modelled from the spec: the intended result of merging the adjacent
segments at indices `i` and `i + 1` — "first expand the surviving segment's
bounds to cover both original segments … then … remove the absorbed segment":
the surviving (left) segment spans from the left segment's start to the right
segment's end keeping its `id`, and the absorbed (right) segment is removed.
Used only to compare the source's `mergeCommit` against the specified
behaviour. -/
def specMergeAdjacent (segs : List TrimSegment) (i : ℕ) : List TrimSegment :=
  let sl := segs.getD i default
  let sr := segs.getD (i + 1) default
  (segs.set i { id := sl.id, start := sl.start, «end» := sr.«end», active := none
    }).eraseIdx (i + 1)

/-- Eleven unit-length segments `[k, k+1]` with ids `0..10`. -/
def elevenSegs : List TrimSegment :=
  [⟨0, 0, 1, none⟩, ⟨1, 1, 2, none⟩, ⟨2, 2, 3, none⟩, ⟨3, 3, 4, none⟩,
   ⟨4, 4, 5, none⟩, ⟨5, 5, 6, none⟩, ⟨6, 6, 7, none⟩, ⟨7, 7, 8, none⟩,
   ⟨8, 8, 9, none⟩, ⟨9, 9, 10, none⟩, ⟨10, 10, 11, none⟩]

/-- The broken result the source produces for the pair `(9, 10)`: the absorbed
segment's id survives on an inverted, empty interval. -/
def elevenSegsMerged9and10 : List TrimSegment :=
  [⟨0, 0, 1, none⟩, ⟨1, 1, 2, none⟩, ⟨2, 2, 3, none⟩, ⟨3, 3, 4, none⟩,
   ⟨4, 4, 5, none⟩, ⟨5, 5, 6, none⟩, ⟨6, 6, 7, none⟩, ⟨7, 7, 8, none⟩,
   ⟨8, 8, 9, none⟩, ⟨10, 10, 10, none⟩]

/-- The two-segment example of the specification: `[0,5]` and `[5,10]`. -/
def twoSegs : List TrimSegment := [⟨7, 0, 5, none⟩, ⟨8, 5, 10, none⟩]

/-- A two-segment store used to exercise the delete gesture. -/
def twoSegsGap : List TrimSegment := [⟨0, 2, 5, none⟩, ⟨1, 6, 9, none⟩]

/-- A release-time engine state: dragging segment 0's end handle with a merge
intent at progress `0.6` toward segment 1. -/
def revertExampleState : EngineState :=
  { segments := twoSegs, dragging := some (.endHandle 0), deleteIntent := none,
    mergeIntent := some ⟨0, 1, 0.6, 50, 55, .right⟩, snapBack := none,
    mergeSnapBack := none }

/-- A mixed-activity pair: segment 1 is deactivated, segment 0 active, with
touching handles. -/
def mixedActiveSegs : List TrimSegment := [⟨0, 0, 4, none⟩, ⟨1, 4, 8, some false⟩]

/-! # Theorems -/

/-- C6: for any handle time `h` with `0 ≤ h ≤ duration` (and positive
duration), the computed detail window satisfies
`0 ≤ viewStart ≤ h ≤ viewEnd ≤ duration` and `viewEnd - viewStart ≤ duration/2`. -/
theorem c6_detail_window_containment (d h : ℚ) (i : ℕ) (e : Edge)
    (hd : 0 < d) (h0 : 0 ≤ h) (h1 : h ≤ d) :
    0 ≤ (computeDetailWindow d h i e).viewStart ∧
    (computeDetailWindow d h i e).viewStart ≤ h ∧
    h ≤ (computeDetailWindow d h i e).viewEnd ∧
    (computeDetailWindow d h i e).viewEnd ≤ d ∧
    (computeDetailWindow d h i e).viewEnd - (computeDetailWindow d h i e).viewStart
      ≤ d / 2 := by
  have hdne : d ≠ 0 := ne_of_gt hd
  have e1 : h - h / d * (d / 2) = h / 2 := by field_simp; ring
  have key : computeDetailWindow d h i e =
      { viewStart := h / 2, viewEnd := h / 2 + d / 2, handleTime := h,
        segmentIndex := i, edge := e } := by
    unfold computeDetailWindow
    dsimp only
    have hc1 : ¬ (h / 2 < 0) := by linarith
    rw [e1, if_neg hc1]
    dsimp only
    have hc2 : ¬ (d < h / 2 + d / 2) := by linarith
    rw [if_neg hc2]
  rw [key]
  dsimp only
  refine ⟨by linarith, by linarith, by linarith, by linarith, by linarith⟩

/-- C6 witness at `duration = 10`, `h = 3`. -/
theorem c6_detail_window_containment_witness :
    0 ≤ (computeDetailWindow 10 3 0 Edge.start).viewStart ∧
    (computeDetailWindow 10 3 0 Edge.start).viewStart ≤ 3 ∧
    (3:ℚ) ≤ (computeDetailWindow 10 3 0 Edge.start).viewEnd ∧
    (computeDetailWindow 10 3 0 Edge.start).viewEnd ≤ 10 ∧
    (computeDetailWindow 10 3 0 Edge.start).viewEnd -
      (computeDetailWindow 10 3 0 Edge.start).viewStart ≤ 10 / 2 :=
  c6_detail_window_containment 10 3 0 Edge.start (by norm_num) (by norm_num)
    (by norm_num)

/-- C7: the rubber-band damping equals `a * (1 - exp(-rawPx / a))` with
`a = 0.55 * DELETE_THRESHOLD_PX = 55`, is strictly increasing on overshoot
distances, and is bounded above by `a = 55` for every (finite) input. -/
theorem c7_rubber_band_damping :
    (∀ x : ℝ, rubberBandPx x = 55 * (1 - Real.exp (-x / 55))) ∧
    (∀ x1 x2 : ℝ, 0 ≤ x1 → x1 < x2 → rubberBandPx x1 < rubberBandPx x2) ∧
    (∀ x : ℝ, rubberBandPx x < 55) := by
  have ha : ((DELETE_THRESHOLD_PX : ℚ) : ℝ) * 0.55 = 55 := by
    norm_num [DELETE_THRESHOLD_PX]
  have hval : ∀ x : ℝ, rubberBandPx x = 55 * (1 - Real.exp (-x / 55)) := by
    intro x
    unfold rubberBandPx
    rw [ha]
  refine ⟨hval, ?_, ?_⟩
  · intro x1 x2 _ hlt
    rw [hval, hval]
    have he : Real.exp (-x2 / 55) < Real.exp (-x1 / 55) :=
      Real.exp_lt_exp.mpr (by linarith)
    nlinarith
  · intro x
    rw [hval]
    have := Real.exp_pos (-x / 55)
    nlinarith

/-- C7 witness: monotonicity at `0 < 1` and the bound at `2`. -/
theorem c7_rubber_band_damping_witness :
    rubberBandPx 0 < rubberBandPx 1 ∧ rubberBandPx 2 < 55 :=
  ⟨c7_rubber_band_damping.2.1 0 1 le_rfl one_pos, c7_rubber_band_damping.2.2 2⟩

/-- C5 counterexample: the host applies responses with no staleness check, so
in a valid interleaving where the response to an older request arrives after
the response to the most recent request, the older request's payload ends up
applied; likewise a response arriving after teardown (`clear`) is still
applied.  This refutes "only the most recently issued request's result is ever
applied" and "discarded on arrival". -/
theorem c5_counterexample :
    validDetailTrace 0
      [DetailFetchEvent.request (0, 5), DetailFetchEvent.request (2, 7),
       DetailFetchEvent.response 1 ["new"], DetailFetchEvent.response 0 ["stale"]]
      = true ∧
    runDetailEvents
      [DetailFetchEvent.request (0, 5), DetailFetchEvent.request (2, 7),
       DetailFetchEvent.response 1 ["new"], DetailFetchEvent.response 0 ["stale"]]
      = some ["stale"] ∧
    (["stale"] ≠ ["new"]) ∧
    runDetailEvents
      [DetailFetchEvent.request (0, 5), DetailFetchEvent.clear,
       DetailFetchEvent.response 0 ["late"]] = some ["late"] := by
  refine ⟨rfl, rfl, by simp, rfl⟩

/-- C5 amended: the detail-thumbnail state is governed purely by arrival
order — the last response to arrive is applied whatever request it answers
(last-response-wins, not last-request-wins), and a trailing clear leaves the
state empty. -/
theorem c5_amended_last_response_wins :
    (∀ (es : List DetailFetchEvent) (i : ℕ) (p : List String),
        runDetailEvents (es ++ [DetailFetchEvent.response i p]) = some p) ∧
    (∀ es : List DetailFetchEvent,
        runDetailEvents (es ++ [DetailFetchEvent.clear]) = none) := by
  constructor
  · intro es i p
    simp [runDetailEvents, List.foldl_append, applyDetailEvent]
  · intro es
    simp [runDetailEvents, List.foldl_append, applyDetailEvent]

/-- C9 counterexample: a container measured at zero width is not treated as
width `1` — `getContainerWidth` returns the measured `0` unchanged, and the
pixel-to-percent conversion then performs a division whose divisor is zero. -/
theorem c9_counterexample :
    getContainerWidth (some 0) = 0 ∧ getContainerWidth (some 0) ≠ 1 ∧
    getPercentFromEventChecked (some 0) 5 = none := by
  refine ⟨rfl, by norm_num [getContainerWidth], ?_⟩
  simp [getPercentFromEventChecked, checkedDiv]

/-- C9 amended: it is a missing track measurement (unmounted container) that
the engine replaces by width `1` — in `getContainerWidth` and in the proximity
computation's `?? 1` fallback — while `getPercentFromEvent` returns `0` for a
missing container without dividing; for any nonzero measured width the percent
conversion divides safely.  A measured zero width is passed through and the
percent conversion divides by zero. -/
theorem c9_amended_missing_container (w x y : ℚ) (hw : w ≠ 0) :
    getContainerWidth none = 1 ∧
    proximityContainerWidth none = 1 ∧
    getPercentFromEventChecked none y = some 0 ∧
    getPercentFromEventChecked (some w) x = some (getPercentFromEvent w x) := by
  refine ⟨rfl, rfl, rfl, ?_⟩
  simp [getPercentFromEventChecked, checkedDiv, getPercentFromEvent, hw]

/-- C9 amended witness at `w = 2`, `x = 1`. -/
theorem c9_amended_missing_container_witness :
    getContainerWidth none = 1 ∧
    proximityContainerWidth none = 1 ∧
    getPercentFromEventChecked none 3 = some 0 ∧
    getPercentFromEventChecked (some 2) 1 = some (getPercentFromEvent 2 1) :=
  c9_amended_missing_container 2 1 3 (by norm_num)

/-- A scheduled dwell deadline is always exactly `DWELL_MS` after the last
timer restart, and a recorded activation fired exactly `DWELL_MS` after the
restart it was anchored to; both facts are preserved by every timer event. -/
theorem timerStep_inv (s : TimerState) (e : TimerEvent)
    (h1 : ∀ dl, s.dwellDeadline = some dl → dl = s.lastRestart + DWELL_MS)
    (h2 : ∀ r ft, s.activation = some (r, ft) → ft = r + DWELL_MS) :
    (∀ dl, (timerStep s e).dwellDeadline = some dl →
        dl = (timerStep s e).lastRestart + DWELL_MS) ∧
    (∀ r ft, (timerStep s e).activation = some (r, ft) → ft = r + DWELL_MS) := by
  cases e with
  | press t h idx edge =>
      constructor
      · intro dl hdl
        simp [timerStep, startDetailTimers] at hdl ⊢
        omega
      · intro r ft hact
        simp [timerStep, startDetailTimers] at hact
        exact h2 r ft hact
  | normalMove t h idx edge =>
      constructor
      · intro dl hdl
        simp [timerStep, startDetailTimers] at hdl ⊢
        omega
      · intro r ft hact
        simp [timerStep, startDetailTimers] at hact
        exact h2 r ft hact
  | resolveShared t h idx edge =>
      constructor
      · intro dl hdl
        simp [timerStep, startDetailTimers] at hdl ⊢
        omega
      · intro r ft hact
        simp [timerStep, startDetailTimers] at hact
        exact h2 r ft hact
  | intentMove t =>
      exact ⟨fun dl hdl => by simp [timerStep] at hdl,
             fun r ft hact => h2 r ft (by simpa [timerStep] using hact)⟩
  | detailMove t =>
      exact ⟨fun dl hdl => by simp [timerStep] at hdl,
             fun r ft hact => h2 r ft (by simpa [timerStep] using hact)⟩
  | release t =>
      exact ⟨fun dl hdl => by simp [timerStep] at hdl,
             fun r ft hact => h2 r ft (by simpa [timerStep] using hact)⟩
  | fireDwell t =>
      rcases hdw : s.dwellDeadline with _ | dl0
      · have hs : timerStep s (.fireDwell t) = s := by simp [timerStep, hdw]
        rw [hs]; exact ⟨h1, h2⟩
      · by_cases ht : t = dl0
        · by_cases hact : s.detailActive
          · have hs : timerStep s (.fireDwell t) = { s with dwellDeadline := none } := by
              simp [timerStep, hdw, ht, hact]
            rw [hs]
            constructor
            · intro dl hdl; exact absurd hdl (by simp)
            · exact fun r ft ha => h2 r ft ha
          · have hs : timerStep s (.fireDwell t) =
                { s with dwellDeadline := none, detailActive := true,
                         activation := some (s.lastRestart, t) } := by
              simp [timerStep, hdw, ht, hact]
            rw [hs]
            constructor
            · intro dl hdl; exact absurd hdl (by simp)
            · intro r ft ha
              simp only [Option.some.injEq, Prod.mk.injEq] at ha
              rcases ha with ⟨hr, hft⟩
              have hdl0 := h1 dl0 hdw
              omega
        · have hs : timerStep s (.fireDwell t) = s := by simp [timerStep, hdw, ht]
          rw [hs]; exact ⟨h1, h2⟩
  | firePrefetch t =>
      rcases hdw : s.prefetchDeadline with _ | dl0
      · have hs : timerStep s (.firePrefetch t) = s := by simp [timerStep, hdw]
        rw [hs]; exact ⟨h1, h2⟩
      · by_cases ht : t = dl0
        · have hs : timerStep s (.firePrefetch t) =
              { s with prefetchDeadline := none } := by
            simp [timerStep, hdw, ht]
          rw [hs]
          exact ⟨fun dl hdl => h1 dl hdl, fun r ft ha => h2 r ft ha⟩
        · have hs : timerStep s (.firePrefetch t) = s := by simp [timerStep, hdw, ht]
          rw [hs]; exact ⟨h1, h2⟩

/-- The timer invariant carried through a whole trace. -/
theorem timerRun_inv (es : List TimerEvent) :
    ∀ s : TimerState,
      (∀ dl, s.dwellDeadline = some dl → dl = s.lastRestart + DWELL_MS) →
      (∀ r ft, s.activation = some (r, ft) → ft = r + DWELL_MS) →
      (∀ dl, (es.foldl timerStep s).dwellDeadline = some dl →
          dl = (es.foldl timerStep s).lastRestart + DWELL_MS) ∧
      (∀ r ft, (es.foldl timerStep s).activation = some (r, ft) →
          ft = r + DWELL_MS) := by
  induction es with
  | nil => exact fun s h1 h2 => ⟨h1, h2⟩
  | cons e es ih =>
      intro s h1 h2
      have hstep := timerStep_inv s e h1 h2
      exact ih (timerStep s e) hstep.1 hstep.2

/-- C8: a detail view only ever activates exactly `DWELL_MS = 600` ms after the
last timer restart (pointer-down, normal drag move, or shared-handle
resolution) — never earlier; every normal move restarts both the 600 ms dwell
timer and the 200 ms prefetch timer anchored at the new boundary time (so do a
press and a reclassification), and a release cancels both timers. -/
theorem c8_dwell_timing :
    (∀ (es : List TimerEvent) (dl : ℕ),
        (runTimerEvents es).dwellDeadline = some dl →
        dl = (runTimerEvents es).lastRestart + DWELL_MS) ∧
    (∀ (es : List TimerEvent) (r ft : ℕ),
        (runTimerEvents es).activation = some (r, ft) → ft = r + DWELL_MS) ∧
    (∀ (es : List TimerEvent) (t : ℕ) (h : ℚ) (idx : ℕ) (edge : Edge),
        runTimerEvents (es ++ [TimerEvent.normalMove t h idx edge]) =
          startDetailTimers (runTimerEvents es) t h idx edge) ∧
    (∀ (es : List TimerEvent) (t : ℕ) (h : ℚ) (idx : ℕ) (edge : Edge),
        (runTimerEvents (es ++ [TimerEvent.press t h idx edge])).dwellDeadline =
          some (t + DWELL_MS) ∧
        (runTimerEvents (es ++ [TimerEvent.press t h idx edge])).prefetchDeadline =
          some (t + PREFETCH_MS)) ∧
    (∀ (es : List TimerEvent) (t : ℕ) (h : ℚ) (idx : ℕ) (edge : Edge),
        (runTimerEvents
            (es ++ [TimerEvent.resolveShared t h idx edge])).dwellDeadline =
          some (t + DWELL_MS) ∧
        (runTimerEvents
            (es ++ [TimerEvent.resolveShared t h idx edge])).prefetchDeadline =
          some (t + PREFETCH_MS)) ∧
    (∀ (es : List TimerEvent) (t : ℕ),
        (runTimerEvents (es ++ [TimerEvent.release t])).dwellDeadline = none ∧
        (runTimerEvents (es ++ [TimerEvent.release t])).prefetchDeadline = none) := by
  have base := fun es => timerRun_inv es initTimerState
    (fun dl hdl => by simp [initTimerState] at hdl)
    (fun r ft ha => by simp [initTimerState] at ha)
  refine ⟨fun es => (base es).1, fun es => (base es).2, ?_, ?_, ?_, ?_⟩
  · intro es t h idx edge
    simp [runTimerEvents, List.foldl_append, timerStep]
  · intro es t h idx edge
    simp [runTimerEvents, List.foldl_append, timerStep, startDetailTimers]
  · intro es t h idx edge
    simp [runTimerEvents, List.foldl_append, timerStep, startDetailTimers]
  · intro es t
    simp [runTimerEvents, List.foldl_append, timerStep]

/-- C8 witness: a press at `t = 0` followed by the dwell callback firing at its
deadline records an activation exactly 600 ms after the restart; a release
clears both timers. -/
theorem c8_dwell_timing_witness :
    (600 : ℕ) = 0 + DWELL_MS ∧
    (runTimerEvents [TimerEvent.press 0 5 0 Edge.start,
        TimerEvent.release 700]).dwellDeadline = none :=
  ⟨c8_dwell_timing.2.1 [TimerEvent.press 0 5 0 Edge.start, TimerEvent.fireDwell 600]
      0 600 rfl,
   (c8_dwell_timing.2.2.2.2.2 [TimerEvent.press 0 5 0 Edge.start] 700).1⟩

/-- Weakening the lower bound of the store invariant. -/
theorem SegsInv.mono {d lo1 lo2 : ℚ} {l : List TrimSegment}
    (h : SegsInv d lo2 l) (hle : lo1 ≤ lo2) : SegsInv d lo1 l := by
  cases l with
  | nil => trivial
  | cons s rest =>
      simp only [SegsInv] at h ⊢
      exact ⟨le_trans hle h.1, h.2.1, h.2.2.1, h.2.2.2⟩

theorem prevBound_cons_succ (lo : ℚ) (s : TrimSegment) (rest : List TrimSegment)
    (n : ℕ) : prevBound lo (s :: rest) (n + 1) = prevBound s.«end» rest n := by
  cases n with
  | zero => simp [prevBound]
  | succ m => simp [prevBound]

theorem nextBound_cons_succ (d : ℚ) (s : TrimSegment) (rest : List TrimSegment)
    (n : ℕ) : nextBound d (s :: rest) (n + 1) = nextBound d rest n := by
  simp only [nextBound, List.length_cons]
  by_cases hlt : n + 1 < rest.length
  · rw [if_pos (by omega), if_pos hlt, List.getD_cons_succ]
  · rw [if_neg (by omega), if_neg hlt]

/-- The invariant localised at one segment: its clamp bounds
(`prevBound`/`nextBound`) really do bracket it with `minSep` slack. -/
theorem segsInv_bounds {d lo : ℚ} {segs : List TrimSegment} {idx : ℕ}
    {seg : TrimSegment} (h : SegsInv d lo segs) (hget : segs.get? idx = some seg) :
    prevBound lo segs idx ≤ seg.start ∧ seg.start + minSep ≤ seg.«end» ∧
    seg.«end» ≤ d ∧ seg.«end» ≤ nextBound d segs idx ∧ lo ≤ seg.start := by
  have hminSep : (0 : ℚ) < minSep := by norm_num [minSep]
  induction segs generalizing lo idx with
  | nil => simp at hget
  | cons s rest ih =>
      simp only [SegsInv] at h
      obtain ⟨hlo, heps, hd, hrest⟩ := h
      cases idx with
      | zero =>
          simp only [List.get?_cons_zero, Option.some.injEq] at hget
          subst hget
          refine ⟨by simpa [prevBound] using hlo, heps, hd, ?_, hlo⟩
          cases rest with
          | nil => simpa [nextBound] using hd
          | cons r rest' =>
              simp only [SegsInv] at hrest
              simpa [nextBound] using hrest.1
      | succ n =>
          simp only [List.get?_cons_succ] at hget
          have IH := ih hrest hget
          rw [prevBound_cons_succ, nextBound_cons_succ]
          refine ⟨IH.1, IH.2.1, IH.2.2.1, IH.2.2.2.1, ?_⟩
          have := IH.2.2.2.2
          linarith

/-- Replacing the segment at `idx` preserves the invariant provided the new
segment stays between its old neighbours' clamp bounds with `minSep` extent. -/
theorem segsInv_set {d lo : ℚ} {segs : List TrimSegment} {idx : ℕ}
    {seg ns : TrimSegment} (h : SegsInv d lo segs)
    (hget : segs.get? idx = some seg)
    (h1 : prevBound lo segs idx ≤ ns.start)
    (h2 : ns.start + minSep ≤ ns.«end»)
    (h3 : ns.«end» ≤ nextBound d segs idx) :
    SegsInv d lo (segs.set idx ns) := by
  have hminSep : (0 : ℚ) < minSep := by norm_num [minSep]
  induction segs generalizing lo idx with
  | nil => simpa using h
  | cons s rest ih =>
      simp only [SegsInv] at h
      obtain ⟨hlo, heps, hd, hrest⟩ := h
      cases idx with
      | zero =>
          simp only [List.get?_cons_zero, Option.some.injEq] at hget
          subst hget
          simp only [List.set_cons_zero, SegsInv]
          have hns_d : ns.«end» ≤ d := by
            cases rest with
            | nil => simpa [nextBound] using h3
            | cons r rest' =>
                simp only [SegsInv] at hrest
                have hr : ns.«end» ≤ r.start := by simpa [nextBound] using h3
                linarith [hrest.2.1, hrest.2.2.1]
          refine ⟨by simpa [prevBound] using h1, h2, hns_d, ?_⟩
          cases rest with
          | nil => trivial
          | cons r rest' =>
              simp only [SegsInv] at hrest ⊢
              exact ⟨by simpa [nextBound] using h3, hrest.2.1, hrest.2.2.1,
                hrest.2.2.2⟩
      | succ n =>
          simp only [List.get?_cons_succ] at hget
          rw [prevBound_cons_succ] at h1
          rw [nextBound_cons_succ] at h3
          simp only [List.set_cons_succ, SegsInv]
          exact ⟨hlo, heps, hd, ih hrest hget h1 h3⟩

/-- The normal start-handle clamp
`newStart = max(minStart, min(t, seg.end - 0.1))` preserves the invariant for
any candidate time `t`. -/
theorem segsInv_clampStart (d : ℚ) {segs : List TrimSegment} {idx : ℕ}
    {seg : TrimSegment} (t : ℚ) (h : SegsInv d 0 segs)
    (hget : segs.get? idx = some seg) :
    SegsInv d 0 (segs.set idx
      { seg with start := max (prevBound 0 segs idx) (min t (seg.«end» - minSep)) }) := by
  have hb := segsInv_bounds h hget
  apply segsInv_set h hget
  · exact le_max_left _ _
  · show max (prevBound 0 segs idx) (min t (seg.«end» - minSep)) + minSep ≤ seg.«end»
    have ha : prevBound 0 segs idx ≤ seg.«end» - minSep := by
      linarith [hb.1, hb.2.1]
    have hm : min t (seg.«end» - minSep) ≤ seg.«end» - minSep := min_le_right _ _
    have := max_le ha hm
    linarith
  · exact hb.2.2.2.1

/-- The normal end-handle clamp
`newEnd = min(maxEnd, max(t, seg.start + 0.1))` preserves the invariant for any
candidate time `t`. -/
theorem segsInv_clampEnd (d : ℚ) {segs : List TrimSegment} {idx : ℕ}
    {seg : TrimSegment} (t : ℚ) (h : SegsInv d 0 segs)
    (hget : segs.get? idx = some seg) :
    SegsInv d 0 (segs.set idx
      { seg with «end» := min (nextBound d segs idx) (max t (seg.start + minSep)) }) := by
  have hb := segsInv_bounds h hget
  apply segsInv_set h hget
  · exact hb.1
  · show seg.start + minSep ≤ min (nextBound d segs idx) (max t (seg.start + minSep))
    refine le_min (by linarith [hb.2.1, hb.2.2.2.1]) (le_max_right _ _)
  · exact min_le_left _ _

/-- A start-handle move (intent, commit or normal branch) keeps the store
invariant and the segment count. -/
theorem moveStartHandle_store (damp : ℚ → ℚ) (st : EngineState) (d : ℚ)
    (idx : ℕ) (x cw : ℚ) (h : SegsInv d 0 st.segments) :
    SegsInv d 0 (moveStartHandle damp st d idx x cw).segments ∧
    (moveStartHandle damp st d idx x cw).segments.length = st.segments.length := by
  unfold moveStartHandle
  cases hget : st.segments.get? idx with
  | none => exact ⟨h, rfl⟩
  | some seg =>
      simp only [hget]
      split_ifs
      · exact ⟨h, rfl⟩
      · exact ⟨h, rfl⟩
      · exact ⟨h, rfl⟩
      · exact ⟨h, rfl⟩
      · exact ⟨segsInv_clampStart d _ h hget, by simp⟩

/-- An end-handle move keeps the store invariant and the segment count. -/
theorem moveEndHandle_store (damp : ℚ → ℚ) (st : EngineState) (d : ℚ)
    (idx : ℕ) (x cw : ℚ) (h : SegsInv d 0 st.segments) :
    SegsInv d 0 (moveEndHandle damp st d idx x cw).segments ∧
    (moveEndHandle damp st d idx x cw).segments.length = st.segments.length := by
  unfold moveEndHandle
  cases hget : st.segments.get? idx with
  | none => exact ⟨h, rfl⟩
  | some seg =>
      simp only [hget]
      split_ifs
      · exact ⟨h, rfl⟩
      · exact ⟨h, rfl⟩
      · exact ⟨h, rfl⟩
      · exact ⟨h, rfl⟩
      · exact ⟨segsInv_clampEnd d _ h hget, by simp⟩

/-- A detail-mode start-handle clamp keeps the store invariant and count. -/
theorem applyDetailClampStart_store (segs : List TrimSegment) (d : ℚ) (idx : ℕ)
    (t : ℚ) (h : SegsInv d 0 segs) :
    SegsInv d 0 (applyDetailClampStart segs idx t) ∧
    (applyDetailClampStart segs idx t).length = segs.length := by
  unfold applyDetailClampStart
  cases hget : segs.get? idx with
  | none => exact ⟨h, rfl⟩
  | some seg =>
      simp only [hget]
      exact ⟨segsInv_clampStart d _ h hget, by simp⟩

/-- A detail-mode end-handle clamp keeps the store invariant and count. -/
theorem applyDetailClampEnd_store (segs : List TrimSegment) (d : ℚ) (idx : ℕ)
    (t : ℚ) (h : SegsInv d 0 segs) :
    SegsInv d 0 (applyDetailClampEnd segs d idx t) ∧
    (applyDetailClampEnd segs d idx t).length = segs.length := by
  unfold applyDetailClampEnd
  cases hget : segs.get? idx with
  | none => exact ⟨h, rfl⟩
  | some seg =>
      simp only [hget]
      exact ⟨segsInv_clampEnd d _ h hget, by simp⟩

/-- The store invariant stated as the specification states it follows from
`SegsInv`. -/
theorem claimInvariant_of_segsInv {d : ℚ} :
    ∀ {lo : ℚ} {segs : List TrimSegment}, 0 ≤ lo → SegsInv d lo segs →
      ClaimInvariant d segs := by
  intro lo segs
  induction segs generalizing lo with
  | nil => intro _ _; exact ⟨trivial, trivial, by simp⟩
  | cons s rest ih =>
      intro hlo h
      have hminSep : (0 : ℚ) < minSep := by norm_num [minSep]
      simp only [SegsInv] at h
      obtain ⟨h1, h2, h3, h4⟩ := h
      have hs0 : (0 : ℚ) ≤ s.«end» := by linarith
      have IH := ih hs0 h4
      refine ⟨?_, ?_, ?_⟩
      · cases rest with
        | nil => simp
        | cons r rest' =>
            rw [List.chain'_cons]
            refine ⟨?_, IH.1⟩
            simp only [SegsInv] at h4
            linarith [h4.1]
      · cases rest with
        | nil => simp
        | cons r rest' =>
            rw [List.chain'_cons]
            refine ⟨?_, IH.2.1⟩
            simp only [SegsInv] at h4
            exact h4.1
      · intro q hq
        rcases List.mem_cons.mp hq with hq | hq
        · subst hq
          exact ⟨by linarith, by linarith, h3⟩
        · exact IH.2.2 q hq

/-- C1 (amended): every committed state reachable from the full-duration seed
segment through the gesture engine's own operations — normal clamped handle
drags (full-track or detail-mode), delete commits and merge commits — is
sorted by `start`, pairwise non-overlapping, has `end - start ≥ 0.1` for every
segment, and keeps all times inside `[0, duration]`.  (Keyboard-driven
insertions and bulk replaces are excluded: see the counterexample.) -/
theorem c1_gesture_reachable_invariant (d : ℚ) (segs : List TrimSegment)
    (hd : minSep ≤ d) (h : Reachable d segs) : ClaimInvariant d segs := by
  have main : SegsInv d 0 segs ∧ segs.length ≤ 1 := by
    induction h with
    | seed i =>
        refine ⟨?_, by simp⟩
        simp only [SegsInv]
        exact ⟨le_refl 0, by simpa using hd, le_refl d, trivial⟩
    | dragStart segs damp idx x cw h hcw ih =>
        have hs := moveStartHandle_store damp (dragStartState segs idx) d idx x cw ih.1
        exact ⟨hs.1, hs.2 ▸ ih.2⟩
    | dragEnd segs damp idx x cw h hcw ih =>
        have hs := moveEndHandle_store damp (dragEndState segs idx) d idx x cw ih.1
        exact ⟨hs.1, hs.2 ▸ ih.2⟩
    | detailStart segs idx t h ih =>
        have hs := applyDetailClampStart_store segs d idx t ih.1
        exact ⟨hs.1, hs.2 ▸ ih.2⟩
    | detailEnd segs idx t h ih =>
        have hs := applyDetailClampEnd_store segs d idx t ih.1
        exact ⟨hs.1, hs.2 ▸ ih.2⟩
    | deleteCommit segs idx h hlen ih =>
        exact absurd hlen (by omega)
    | mergeCommitStep segs idx tgt h hadj hidx htgt ih =>
        exfalso
        have := ih.2
        rcases hadj with hadj | hadj <;> omega
  exact claimInvariant_of_segsInv (le_refl 0) main.1

/-- C1 amended witness: the seed store for `duration = 10` and the result of a
normal end-handle drag on it. -/
theorem c1_gesture_reachable_invariant_witness :
    ClaimInvariant 10 [⟨0, 0, 10, none⟩] ∧
    ClaimInvariant 10
      ((moveEndHandle (fun q => q) (dragEndState [⟨0, 0, 10, none⟩] 0)
          10 0 50 100).segments) :=
  ⟨c1_gesture_reachable_invariant 10 _ (by norm_num [minSep]) (.seed 0),
   c1_gesture_reachable_invariant 10 _ (by norm_num [minSep])
     (.dragEnd _ (fun q => q) 0 50 100 (.seed 0) (by norm_num))⟩

/-- C1 counterexample: with the keyboard-driven insertion included in the
operation set (as the claim states), the invariant is violated.  From the seed
`[0,10]` (duration 10), a normal end-handle drag commits `[0,5]`; pressing `[`
with the playhead at `t = 7` (outside every segment, frame rate 30 fps so
`frameDuration = 1/30`) inserts the one-frame segment `[7, 7 + 1/30]`, whose
extent `1/30 < 0.1` breaks the minimum-separation invariant. -/
theorem c1_keyboard_insert_counterexample :
    ReachableFull 10 (1/30) [⟨0, 0, 5, none⟩, ⟨1, 7, 211/30, none⟩] ∧
    ¬ ClaimInvariant 10 [⟨0, 0, 5, none⟩, ⟨1, 7, 211/30, none⟩] := by
  constructor
  · have h0 : ReachableFull 10 (1/30) [⟨0, 0, 10, none⟩] := .seed 0
    have h1 : ReachableFull 10 (1/30)
        ((moveEndHandle (fun q => q) (dragEndState [⟨0, 0, 10, none⟩] 0)
          10 0 50 100).segments) :=
      ReachableFull.dragEnd [⟨0, 0, 10, none⟩] (fun q => q) 0 50 100 h0
        (by norm_num)
    have e1 : (moveEndHandle (fun q => q) (dragEndState [⟨0, 0, 10, none⟩] 0)
        10 0 50 100).segments = [⟨0, 0, 5, none⟩] := by
      norm_num [moveEndHandle, dragEndState, getPercentFromEvent, percentToTime,
        timeToPercent, nextBound, prevBound, minSep]
    rw [e1] at h1
    have h2 : ReachableFull 10 (1/30)
        (pressLBracket [⟨0, 0, 5, none⟩] 7 (1/30) 10 1) :=
      ReachableFull.keyIn [⟨0, 0, 5, none⟩] h1 7 (by norm_num) (by norm_num) 1
    have e2 : pressLBracket [⟨0, 0, 5, none⟩] 7 (1/30) 10 1 =
        [⟨0, 0, 5, none⟩, ⟨1, 7, 211/30, none⟩] := by
      norm_num [pressLBracket, List.findIdx?, sortByStart, insertByStart]
    rw [e2] at h2
    exact h2
  · intro hc
    have hmem : (⟨1, 7, 211/30, none⟩ : TrimSegment) ∈
        [(⟨0, 0, 5, none⟩ : TrimSegment), ⟨1, 7, 211/30, none⟩] := by simp
    have h2 := (hc.2.2 _ hmem).1
    norm_num [minSep] at h2

/-- C2: the two-phase merge behaves as claimed on the specification's example
(adjacent pair at indices 0 and 1 — phase 1 expands the survivor over both
segments keeping its id, phase 2 removes the absorbed segment, and
`[0,5] ++ [5,10]` becomes `[0,10]`), but the claim's universal statement fails:
`[segmentIndex, targetSegmentIndex].sort()` uses JavaScript's default
string-based comparator, and for the adjacent pair `(9, 10)` it orders
`"10" < "9"`, swapping survivor and absorbed: the commit produces the inverted
empty segment `{ id: 10, start: 10, end: 10 }` instead of `{ id: 9, start: 9,
end: 11 }`, contradicting the code's own comment ("expand surviving segment to
cover both"). -/
theorem c2_merge_commit_and_sort_bug :
    mergePhase1 twoSegs 0 1 = [⟨7, 0, 10, none⟩, ⟨8, 5, 10, none⟩] ∧
    mergePhase2 (mergePhase1 twoSegs 0 1) 8 = [⟨7, 0, 10, none⟩] ∧
    mergeCommit twoSegs 0 1 = [⟨7, 0, 10, none⟩] ∧
    mergeCommit twoSegs 0 1 = specMergeAdjacent twoSegs 0 ∧
    jsDefaultSortPair 9 10 = (10, 9) ∧
    mergeCommit elevenSegs 9 10 = elevenSegsMerged9and10 ∧
    (∃ s ∈ mergeCommit elevenSegs 9 10, s.«end» ≤ s.start) ∧
    mergeCommit elevenSegs 9 10 ≠ specMergeAdjacent elevenSegs 9 := by
  refine ⟨rfl, rfl, rfl, rfl, rfl, rfl, ?_, ?_⟩
  · refine ⟨⟨10, 10, 10, none⟩, ?_, le_refl _⟩
    show (⟨10, 10, 10, none⟩ : TrimSegment) ∈ elevenSegsMerged9and10
    simp [elevenSegsMerged9and10]
  · intro hEq
    have h9 := congrArg (fun l => (l.getD 9 default).id) hEq
    have h10 : (10 : ℕ) = 9 := h9
    omega

/-- C3: dragging the end handle past its own start handle with at least
`DELETE_THRESHOLD_PX = 100` raw overshoot produces a committed-delete snap-back
(whose completion removes the segment) precisely when more than one segment
exists; with a single segment no delete intent and no snap-back ever arise and
the move is the normal clamp keeping `end - start ≥ 0.1` inside `[0, d]`. -/
theorem c3_delete_iff_multiple_segments (damp : ℚ → ℚ) (segs : List TrimSegment)
    (d : ℚ) (idx : ℕ) (x cw : ℚ) (seg : TrimSegment)
    (hinv : SegsInv d 0 segs) (hget : segs.get? idx = some seg) :
    (percentToTime d (getPercentFromEvent cw x) < seg.start →
      DELETE_THRESHOLD_PX ≤ timeToPercent d seg.start / 100 * cw - x →
      ((∃ sb, (moveEndHandle damp (dragEndState segs idx) d idx x cw).snapBack
            = some sb ∧
          sb.deleteAfter = true ∧
          (moveEndHandle damp (dragEndState segs idx) d idx x cw).dragging = none ∧
          (handleSnapTransitionEnd
              (moveEndHandle damp (dragEndState segs idx) d idx x cw)).segments
            = removeAtIndex segs idx) ↔ 1 < segs.length)) ∧
    (segs.length = 1 →
      (moveEndHandle damp (dragEndState segs idx) d idx x cw).deleteIntent = none ∧
      (moveEndHandle damp (dragEndState segs idx) d idx x cw).snapBack = none ∧
      ∃ newEnd,
        (moveEndHandle damp (dragEndState segs idx) d idx x cw).segments =
          segs.set idx { seg with «end» := newEnd } ∧
        seg.start + minSep ≤ newEnd ∧ newEnd ≤ d) ∧
    (seg.«end» < percentToTime d (getPercentFromEvent cw x) →
      DELETE_THRESHOLD_PX ≤ x - timeToPercent d seg.«end» / 100 * cw →
      ((∃ sb, (moveStartHandle damp (dragStartState segs idx) d idx x cw).snapBack
            = some sb ∧
          sb.deleteAfter = true ∧
          (moveStartHandle damp (dragStartState segs idx) d idx x cw).dragging
            = none ∧
          (handleSnapTransitionEnd
              (moveStartHandle damp (dragStartState segs idx) d idx x cw)).segments
            = removeAtIndex segs idx) ↔ 1 < segs.length)) ∧
    (segs.length = 1 →
      (moveStartHandle damp (dragStartState segs idx) d idx x cw).deleteIntent
        = none ∧
      (moveStartHandle damp (dragStartState segs idx) d idx x cw).snapBack = none ∧
      ∃ newStart,
        (moveStartHandle damp (dragStartState segs idx) d idx x cw).segments =
          segs.set idx { seg with start := newStart } ∧
        0 ≤ newStart ∧ newStart + minSep ≤ seg.«end») := by
  have hb := segsInv_bounds hinv hget
  have hidx : idx < segs.length := (List.get?_eq_some.mp hget).1
  refine ⟨?_, ?_, ?_, ?_⟩
  · intro htime hover
    unfold moveEndHandle
    dsimp only [dragEndState]
    simp only [hget]
    split_ifs with h1 h2 h3 h4
    · exact iff_of_true ⟨_, rfl, rfl, rfl, rfl⟩ h1.1
    · exfalso
      apply h2
      have hpos : (0 : ℚ) ≤ timeToPercent d seg.start / 100 * cw - x := by
        have : (0 : ℚ) < DELETE_THRESHOLD_PX := by norm_num [DELETE_THRESHOLD_PX]
        linarith
      rw [max_eq_right hpos]
      refine le_min le_rfl ?_
      rw [le_div_iff₀ (by norm_num [DELETE_THRESHOLD_PX] : (0:ℚ) < DELETE_THRESHOLD_PX),
        one_mul]
      exact hover
    · refine iff_of_false ?_ ?_
      · rintro ⟨sb, hsb, -⟩
        simp at hsb
      · intro hlen
        exact h1 ⟨hlen, htime⟩
    · refine iff_of_false ?_ ?_
      · rintro ⟨sb, hsb, -⟩
        simp at hsb
      · intro hlen
        exact h1 ⟨hlen, htime⟩
    · refine iff_of_false ?_ ?_
      · rintro ⟨sb, hsb, -⟩
        simp at hsb
      · intro hlen
        exact h1 ⟨hlen, htime⟩
  · intro hlen1
    have hnb : nextBound d segs idx = d := by
      have hidx : idx < segs.length := List.get?_eq_some.mp hget |>.1
      unfold nextBound
      rw [if_neg (by omega)]
    unfold moveEndHandle
    dsimp only [dragEndState]
    simp only [hget]
    split_ifs with h1 h1b h2 h2b
    · exact absurd h1.1 (by omega)
    · exact absurd h1.1 (by omega)
    · exact absurd h2.1 (by omega)
    · exact absurd h2.1 (by omega)
    · refine ⟨rfl, rfl, ?_⟩
      refine ⟨min (nextBound d segs idx)
        (max (percentToTime d (getPercentFromEvent cw x)) (seg.start + minSep)),
        rfl, ?_, ?_⟩
      · refine le_min ?_ (le_max_right _ _)
        rw [hnb]
        linarith [hb.2.1, hb.2.2.1]
      · rw [hnb] at *
        exact min_le_left _ _
  · intro htime hover
    unfold moveStartHandle
    dsimp only [dragStartState]
    simp only [hget]
    split_ifs with h1 h2 h3 h4
    · exact iff_of_true ⟨_, rfl, rfl, rfl, rfl⟩ h1.1
    · exfalso
      apply h2
      have hpos : (0 : ℚ) ≤ x - timeToPercent d seg.«end» / 100 * cw := by
        have : (0 : ℚ) < DELETE_THRESHOLD_PX := by norm_num [DELETE_THRESHOLD_PX]
        linarith
      rw [max_eq_right hpos]
      refine le_min le_rfl ?_
      rw [le_div_iff₀ (by norm_num [DELETE_THRESHOLD_PX] : (0:ℚ) < DELETE_THRESHOLD_PX),
        one_mul]
      exact hover
    · refine iff_of_false ?_ ?_
      · rintro ⟨sb, hsb, -⟩
        simp at hsb
      · intro hlen
        exact h1 ⟨hlen, htime⟩
    · refine iff_of_false ?_ ?_
      · rintro ⟨sb, hsb, -⟩
        simp at hsb
      · intro hlen
        exact h1 ⟨hlen, htime⟩
    · refine iff_of_false ?_ ?_
      · rintro ⟨sb, hsb, -⟩
        simp at hsb
      · intro hlen
        exact h1 ⟨hlen, htime⟩
  · intro hlen1
    have hpb : prevBound 0 segs idx = 0 := by
      unfold prevBound
      rw [if_neg (by omega)]
    unfold moveStartHandle
    dsimp only [dragStartState]
    simp only [hget]
    split_ifs with h1 h1b h2 h2b
    · exact absurd h1.1 (by omega)
    · exact absurd h1.1 (by omega)
    · exact absurd h2.1 (by omega)
    · exact absurd h2.1 (by omega)
    · refine ⟨rfl, rfl, ?_⟩
      refine ⟨max (prevBound 0 segs idx)
        (min (percentToTime d (getPercentFromEvent cw x)) (seg.«end» - minSep)),
        rfl, ?_, ?_⟩
      · rw [hpb]
        exact le_max_left _ _
      · rw [hpb]
        have h0s := hb.2.2.2.2
        have heps := hb.2.1
        have := max_le (by linarith : (0:ℚ) ≤ seg.«end» - minSep)
          (min_le_right (percentToTime d (getPercentFromEvent cw x))
            (seg.«end» - minSep))
        linarith

/-- C3 witness: on `[2,5],[6,9]` (two segments, duration 10, track width 100),
dragging segment 0's end handle to `x = -80` crosses its start (pixel 20) with
exactly 100 px raw overshoot and commits the delete; on a single segment the
same gesture leaves no delete intent. -/
theorem c3_delete_iff_multiple_segments_witness :
    (∃ sb, (moveEndHandle (fun q => q) (dragEndState twoSegsGap 0)
          10 0 (-80) 100).snapBack = some sb ∧
        sb.deleteAfter = true ∧
        (moveEndHandle (fun q => q) (dragEndState twoSegsGap 0)
          10 0 (-80) 100).dragging = none ∧
        (handleSnapTransitionEnd (moveEndHandle (fun q => q)
            (dragEndState twoSegsGap 0) 10 0 (-80) 100)).segments
          = removeAtIndex twoSegsGap 0) ∧
    (moveEndHandle (fun q => q) (dragEndState [⟨0, 0, 10, none⟩] 0)
        10 0 (-80) 100).deleteIntent = none := by
  constructor
  · refine ((c3_delete_iff_multiple_segments (fun q => q) twoSegsGap 10 0 (-80) 100
      ⟨0, 2, 5, none⟩ ?_ rfl).1 ?_ ?_).mpr (by norm_num [twoSegsGap])
    · simp only [twoSegsGap, SegsInv]
      norm_num [minSep]
    · norm_num [percentToTime, getPercentFromEvent]
    · norm_num [timeToPercent, DELETE_THRESHOLD_PX]
  · exact ((c3_delete_iff_multiple_segments (fun q => q) [⟨0, 0, 10, none⟩] 10 0
      (-80) 100 ⟨0, 0, 10, none⟩
      (by simp only [SegsInv]; norm_num [minSep]) rfl).2.1 rfl).1

/-- A start-handle move whose outcome still carries an intent leaves the store
untouched. -/
theorem moveStartHandle_intent_pure (damp : ℚ → ℚ) (st : EngineState) (d : ℚ)
    (idx : ℕ) (x cw : ℚ) :
    (moveStartHandle damp st d idx x cw).deleteIntent.isSome ∨
      (moveStartHandle damp st d idx x cw).mergeIntent.isSome →
    (moveStartHandle damp st d idx x cw).segments = st.segments := by
  unfold moveStartHandle
  cases hget : st.segments.get? idx with
  | none => intro _; rfl
  | some seg =>
      simp only [hget]
      split_ifs <;> intro hsome
      · rfl
      · rfl
      · rfl
      · rfl
      · exact absurd hsome (by simp)

/-- An end-handle move whose outcome still carries an intent leaves the store
untouched. -/
theorem moveEndHandle_intent_pure (damp : ℚ → ℚ) (st : EngineState) (d : ℚ)
    (idx : ℕ) (x cw : ℚ) :
    (moveEndHandle damp st d idx x cw).deleteIntent.isSome ∨
      (moveEndHandle damp st d idx x cw).mergeIntent.isSome →
    (moveEndHandle damp st d idx x cw).segments = st.segments := by
  unfold moveEndHandle
  cases hget : st.segments.get? idx with
  | none => intro _; rfl
  | some seg =>
      simp only [hget]
      split_ifs <;> intro hsome
      · rfl
      · rfl
      · rfl
      · rfl
      · exact absurd hsome (by simp)

/-- C4: releasing the pointer while a delete or merge intent is active (its
progress below 1) produces a snap-back whose commit flag is `false`; intents
never mutate segment bounds while active, and after the snap-back's completion
signal (and the merge completion signal) the store is exactly what it was
before the overshoot began, with no intent or snap-back state remaining. -/
theorem c4_release_below_threshold_reverts (damp : ℚ → ℚ) (st : EngineState)
    (d : ℚ) (idx : ℕ) (x cw : ℚ)
    (hdrag : st.dragging = some (.startHandle idx) ∨
      st.dragging = some (.endHandle idx))
    (hsb : st.snapBack = none) (hmsb : st.mergeSnapBack = none)
    (hintent : (∃ di, st.deleteIntent = some di ∧ di.progress < 1) ∨
      (∃ mi, st.mergeIntent = some mi ∧ mi.progress < 1)) :
    ((moveStartHandle damp st d idx x cw).deleteIntent.isSome ∨
        (moveStartHandle damp st d idx x cw).mergeIntent.isSome →
      (moveStartHandle damp st d idx x cw).segments = st.segments) ∧
    ((moveEndHandle damp st d idx x cw).deleteIntent.isSome ∨
        (moveEndHandle damp st d idx x cw).mergeIntent.isSome →
      (moveEndHandle damp st d idx x cw).segments = st.segments) ∧
    (handleMouseUp st).segments = st.segments ∧
    (handleMouseUp st).deleteIntent = none ∧
    (handleMouseUp st).mergeIntent = none ∧
    (handleMouseUp st).dragging = none ∧
    (∀ sb, (handleMouseUp st).snapBack = some sb → sb.deleteAfter = false) ∧
    (∀ msb, (handleMouseUp st).mergeSnapBack = some msb →
      msb.commitAfter = false) ∧
    (handleMergeSnapTransitionEnd (handleSnapTransitionEnd
        (handleMouseUp st))).segments = st.segments ∧
    (handleMergeSnapTransitionEnd (handleSnapTransitionEnd
        (handleMouseUp st))).deleteIntent = none ∧
    (handleMergeSnapTransitionEnd (handleSnapTransitionEnd
        (handleMouseUp st))).mergeIntent = none ∧
    (handleMergeSnapTransitionEnd (handleSnapTransitionEnd
        (handleMouseUp st))).snapBack = none ∧
    (handleMergeSnapTransitionEnd (handleSnapTransitionEnd
        (handleMouseUp st))).mergeSnapBack = none ∧
    (handleMergeSnapTransitionEnd (handleSnapTransitionEnd
        (handleMouseUp st))).dragging = none := by
  refine ⟨moveStartHandle_intent_pure damp st d idx x cw,
    moveEndHandle_intent_pure damp st d idx x cw, ?_⟩
  cases hdel : st.deleteIntent with
  | some di =>
      rcases hdrag with hd | hd <;>
        simp [handleMouseUp, handleSnapTransitionEnd, handleMergeSnapTransitionEnd,
          hd, hdel, hsb, hmsb]
  | none =>
      rcases hintent with ⟨di, hdi, -⟩ | ⟨mi, hmi, -⟩
      · rw [hdel] at hdi; exact absurd hdi (by simp)
      · rcases hdrag with hd | hd <;>
          simp [handleMouseUp, handleSnapTransitionEnd, handleMergeSnapTransitionEnd,
            hd, hdel, hmi, hsb, hmsb]

/-- C4 witness: releasing during the merge intent at progress `0.6` over
`[0,5],[5,10]` leaves the store unchanged and no snap-back behind once both
completion signals have run. -/
theorem c4_release_below_threshold_reverts_witness :
    (handleMergeSnapTransitionEnd (handleSnapTransitionEnd
        (handleMouseUp revertExampleState))).segments
      = revertExampleState.segments ∧
    (handleMergeSnapTransitionEnd (handleSnapTransitionEnd
        (handleMouseUp revertExampleState))).mergeSnapBack = none :=
  have h := c4_release_below_threshold_reverts (fun q => q) revertExampleState
    10 0 0 100 (Or.inr rfl) rfl rfl
    (Or.inr ⟨⟨0, 1, 0.6, 50, 55, .right⟩, rfl, by norm_num⟩)
  ⟨h.2.2.2.2.2.2.2.2.1, h.2.2.2.2.2.2.2.2.2.2.2.2.1⟩

/-- Every entry `proximityStep` adds is keyed `end-j` / `start-(j+1)` for a
pair `j` whose active flags agree. -/
theorem proximityStep_keys (segs : List TrimSegment) (d cw : ℚ)
    (acc : List (ProxKey × ProxInfo)) (i : ℕ) :
    ∀ p ∈ proximityStep segs d cw acc i,
      p ∈ acc ∨ ∃ j, (p.1 = ProxKey.endKey j ∨ p.1 = ProxKey.startKey (j + 1)) ∧
        (segs.getD j default).isActive = (segs.getD (j + 1) default).isActive := by
  intro p hp
  unfold proximityStep at hp
  dsimp only at hp
  split_ifs at hp with hact hgap
  · exact Or.inl hp
  · rcases List.mem_append.mp hp with hp | hp
    · exact Or.inl hp
    · right
      refine ⟨i, ?_, not_ne_iff.mp (by simpa [bne_iff_ne] using hact)⟩
      rcases List.mem_cons.mp hp with hp | hp
      · subst hp; exact Or.inl rfl
      · have : p = (ProxKey.startKey (i + 1),
            (⟨max 0 (min 1 (1 - ((segs.getD (i+1) default).start / d * cw -
              (segs.getD i default).«end» / d * cw) / HANDLE_WIDTH_PX)), i⟩ :
              ProxInfo)) := by simpa using hp
        subst this; exact Or.inr rfl
  · exact Or.inl hp

/-- The keys of the accumulated `handleProximity` record all come from pairs
with matching active flags. -/
theorem handleProximityEntries_keys (segs : List TrimSegment) (d cw : ℚ) :
    ∀ p ∈ handleProximityEntries segs d cw, ∃ j,
      (p.1 = ProxKey.endKey j ∨ p.1 = ProxKey.startKey (j + 1)) ∧
      (segs.getD j default).isActive = (segs.getD (j + 1) default).isActive := by
  have haux : ∀ (l : List ℕ) (acc : List (ProxKey × ProxInfo)),
      (∀ p ∈ acc, ∃ j,
        (p.1 = ProxKey.endKey j ∨ p.1 = ProxKey.startKey (j + 1)) ∧
        (segs.getD j default).isActive = (segs.getD (j + 1) default).isActive) →
      ∀ p ∈ l.foldl (proximityStep segs d cw) acc, ∃ j,
        (p.1 = ProxKey.endKey j ∨ p.1 = ProxKey.startKey (j + 1)) ∧
        (segs.getD j default).isActive = (segs.getD (j + 1) default).isActive := by
    intro l
    induction l with
    | nil => intro acc hacc; simpa using hacc
    | cons i l ih =>
        intro acc hacc
        simp only [List.foldl_cons]
        apply ih
        intro p hp
        rcases proximityStep_keys segs d cw acc i p hp with hp | hp
        · exact hacc p hp
        · exact hp
  exact haux (List.range (segs.length - 1)) [] (by simp)

/-- For an adjacent pair with differing active flags, neither facing handle has
a proximity entry. -/
theorem handleProximityLookup_none_of_mixed (segs : List TrimSegment) (d cw : ℚ)
    (i : ℕ)
    (hmix : (segs.getD i default).isActive ≠ (segs.getD (i + 1) default).isActive) :
    handleProximityLookup segs d cw (.endKey i) = none ∧
    handleProximityLookup segs d cw (.startKey (i + 1)) = none := by
  constructor
  · unfold handleProximityLookup
    rcases hfind : (handleProximityEntries segs d cw).find?
        (fun p => p.1 == ProxKey.endKey i) with _ | q
    · rw [hfind]; rfl
    · exfalso
      have hmem := List.mem_of_find?_eq_some hfind
      have hkey : q.1 = ProxKey.endKey i := by simpa using List.find?_some hfind
      rcases handleProximityEntries_keys segs d cw q hmem with ⟨j, hj | hj, hact⟩
      · have hji : j = i := by
          have := hkey.symm.trans hj
          simpa using this.symm
        subst hji
        exact hmix hact
      · rw [hkey] at hj
        simp at hj
  · unfold handleProximityLookup
    rcases hfind : (handleProximityEntries segs d cw).find?
        (fun p => p.1 == ProxKey.startKey (i + 1)) with _ | q
    · rw [hfind]; rfl
    · exfalso
      have hmem := List.mem_of_find?_eq_some hfind
      have hkey : q.1 = ProxKey.startKey (i + 1) := by
        simpa using List.find?_some hfind
      rcases handleProximityEntries_keys segs d cw q hmem with ⟨j, hj | hj, hact⟩
      · rw [hkey] at hj
        simp at hj
      · have hji : j = i := by
          have := hkey.symm.trans hj
          simpa using this.symm
        subst hji
        exact hmix hact

/-- One scan step of `handleTrackMouseDown` can never produce a shared target
for a pair whose facing handles have no proximity entries. -/
theorem classifyStep_no_shared_pair (segs : List TrimSegment) (d cw clickX : ℚ)
    (i : ℕ)
    (hend : handleProximityLookup segs d cw (.endKey i) = none)
    (hstart : handleProximityLookup segs d cw (.startKey (i + 1)) = none)
    (acc : Option DragTarget × ℚ)
    (hacc : ∀ sx rs, acc.1 ≠ some (.shared i (i + 1) sx rs)) (j : ℕ) :
    ∀ sx rs, (classifyStep segs d cw clickX acc j).1 ≠
      some (.shared i (i + 1) sx rs) := by
  intro sx rs
  unfold classifyStep
  dsimp only
  split_ifs with hc1 hc2 hc2
  · -- start-handle candidate replaced by end-handle candidate
    by_cases hji : j = i
    · subst hji
      rw [hend]
      simp
    · rcases hlook : handleProximityLookup segs d cw (.endKey j) with _ | blend
      · simp
      · dsimp only
        split_ifs
        · simp [hji]
        · simp
  · -- only the start-handle candidate
    by_cases hji : j = i + 1
    · subst hji
      rw [hstart]
      simp
    · rcases hlook : handleProximityLookup segs d cw (.startKey j) with _ | blend
      · simp
      · dsimp only
        split_ifs
        · simp [hji]
        · simp
  · -- end-handle candidate from the unchanged accumulator
    by_cases hji : j = i
    · subst hji
      rw [hend]
      simp
    · rcases hlook : handleProximityLookup segs d cw (.endKey j) with _ | blend
      · simp
      · dsimp only
        split_ifs
        · simp [hji]
        · simp
  · exact hacc sx rs

/-- The scan never produces a shared target for a pair without proximity
entries, over any list of indices. -/
theorem classifyFold_no_shared_pair (segs : List TrimSegment) (d cw clickX : ℚ)
    (i : ℕ)
    (hend : handleProximityLookup segs d cw (.endKey i) = none)
    (hstart : handleProximityLookup segs d cw (.startKey (i + 1)) = none) :
    ∀ (l : List ℕ) (acc : Option DragTarget × ℚ),
      (∀ sx rs, acc.1 ≠ some (.shared i (i + 1) sx rs)) →
      ∀ sx rs, (l.foldl (classifyStep segs d cw clickX) acc).1 ≠
        some (.shared i (i + 1) sx rs) := by
  intro l
  induction l with
  | nil => intro acc hacc; exact hacc
  | cons j l ih =>
      intro acc hacc
      simp only [List.foldl_cons]
      exact ih _ (classifyStep_no_shared_pair segs d cw clickX i hend hstart acc
        hacc j)

/-- C10: when exactly one of two adjacent segments is inactive, the proximity
blender produces no entry for their facing handles, a press on either facing
handle is classified as the concrete end/start handle (never shared), and the
track scan never yields a shared target for that pair. -/
theorem c10_mixed_active_pair_is_concrete (segs : List TrimSegment) (d cw : ℚ)
    (i : ℕ) (_hadj : i + 1 < segs.length)
    (hmix : (segs.getD i default).isActive ≠ (segs.getD (i + 1) default).isActive) :
    handleProximityLookup segs d cw (.endKey i) = none ∧
    handleProximityLookup segs d cw (.startKey (i + 1)) = none ∧
    (∀ clickX, classifyHandlePress segs d cw i .«end» clickX = .endHandle i) ∧
    (∀ clickX, classifyHandlePress segs d cw (i + 1) .start clickX =
      .startHandle (i + 1)) ∧
    (∀ clickX sx rs, classifyPress segs d cw clickX ≠
      some (.shared i (i + 1) sx rs)) := by
  obtain ⟨hend, hstart⟩ := handleProximityLookup_none_of_mixed segs d cw i hmix
  refine ⟨hend, hstart, ?_, ?_, ?_⟩
  · intro clickX
    simp [classifyHandlePress, hend]
  · intro clickX
    simp [classifyHandlePress, hstart]
  · intro clickX sx rs
    unfold classifyPress
    exact classifyFold_no_shared_pair segs d cw clickX i hend hstart _ _
      (by simp) sx rs

/-- C10 witness on `[0,4]` (active) next to `[4,8]` (deactivated), track width
100, duration 8. -/
theorem c10_mixed_active_pair_is_concrete_witness :
    handleProximityLookup mixedActiveSegs 8 100 (.endKey 0) = none ∧
    classifyHandlePress mixedActiveSegs 8 100 0 .«end» 50 = .endHandle 0 ∧
    classifyHandlePress mixedActiveSegs 8 100 1 .start 50 = .startHandle 1 ∧
    ∀ sx rs, classifyPress mixedActiveSegs 8 100 50 ≠ some (.shared 0 1 sx rs) :=
  have h := c10_mixed_active_pair_is_concrete mixedActiveSegs 8 100 0
    (by simp [mixedActiveSegs])
    (by simp [mixedActiveSegs, TrimSegment.isActive])
  ⟨h.1, h.2.2.1 50, h.2.2.2.1 50, fun sx rs => h.2.2.2.2 50 sx rs⟩

end VideoBricks
